import Mathlib

/-!
A shallow embedding of the Java Object Serialization stream decoder of
`src/parser.ts` (nodeJavaDeserialization), together with theorems settling the
behavioural claims about it.

Modelling conventions, chosen to mirror the JavaScript source faithfully:

* A byte buffer is a `List Nat` of byte values; `buf.toString("utf8", a, b)`
  and `buf.toString("hex", a, b)` are modelled as the raw byte slice (both
  encodings are injective, and every string the claims touch is ASCII, where
  the UTF-8 decode is the identity on code points).
* IEEE-754 reads (`readDoubleBE` / `readFloatBE`) are kept as the raw
  big-endian byte slices: no claim depends on float arithmetic.
* The handle table is a sparse map `Nat → Option (Option JValue)`:
  `none` models a JavaScript array cell that was never assigned (reading it
  yields `undefined`), `some none` models a cell holding the value `null`
  (the placeholder installed by `newDeferredHandle`), and `some (some v)` a
  cell holding `v`.  Density of allocation is therefore a theorem, not a
  representation artifact.
* JavaScript mutation of a value that already sits in the handle table
  (`parseClassDesc` fills `res` after `newHandle(res)`) is rendered by
  writing a snapshot of the partially built value at the `newHandle` point
  and overwriting the same slot with the completed value at the end of the
  method.  For every stream that does not make a value reference itself
  while it is still being built, the observable results agree with the
  source; cyclic in-construction references are not representable in a tree
  model.
* Field maps and the per-ancestor `extends` record are association lists
  whose lookup returns the value of the last matching assignment, which is
  exactly the final value a JavaScript object holds for that key.
* `parse<Name>` dispatch through `this["parse" + name]` is rendered as a
  match on the decoded handler name; the handlers that do not exist on the
  source class (`Reset`, `Exception`, `ProxyClassDesc`, and the undefined
  name produced by type code 0x7F) fall to the `noHandler` error, mirroring
  `"Don't know how to handle " + name`.
* Positions where the source dereferences a non-object (for example
  `classDesc.name.charAt(1)` when the descriptor position produced `null`)
  are modelled by the fatal error `typeError`; the source also aborts there,
  with a host TypeError.
* The post-processor registry (`Parser.register`, populated outside the
  sources under analysis) is a parameter `reg` mapping a class name and raw
  serialVersionUID bytes to an optional function of the declared
  `ParseFunc` shape.
* Each recursive parser takes a fuel argument and fails with `outOfFuel`
  when it runs out; a parse of a buffer succeeds exactly when it returns
  `.ok` for some fuel, and every theorem quantifies over the fuel.
-/

mutual

/-- Decoded values: the `Handle` universe of the source, plus the
`endBlock` sentinel, JavaScript `undefined`, and the raw primitive reads. -/
inductive JValue where
  | null
  | undef
  | endBlock
  | bool (b : Bool)
  | int (i : Int)
  | long (hi lo : Nat)
  | char (c : Nat)
  | double (bs : List Nat)
  | float (bs : List Nat)
  | str (s : List Nat)
  | bytes (bs : List Nat)
  | list (xs : List JValue)
  | cls (c : ClassDesc)
  | obj (o : ObjectDesc)
  | arr (a : ArrayDesc)
  | enumv (constant : JValue) (clazz : JValue)

inductive FieldDesc where
  | mk (type : Nat) (name : List Nat) (className : Option JValue)

inductive ClassDesc where
  | mk (name : List Nat) (serialVersionUID : List Nat) (flags : Nat)
       (isEnum : Bool) (fields : List FieldDesc) (annots : List JValue)
       (sup : JValue)

inductive ObjectDesc where
  | mk (cls : ClassDesc) (ext : List (List Nat × List (List Nat × JValue)))
       (fields : List (List Nat × JValue))

inductive ArrayDesc where
  | mk (cls : ClassDesc) (elems : List JValue)

end

def FieldDesc.type : FieldDesc → Nat
  | .mk t _ _ => t

def FieldDesc.name : FieldDesc → List Nat
  | .mk _ n _ => n

def FieldDesc.className : FieldDesc → Option JValue
  | .mk _ _ c => c

def ClassDesc.name : ClassDesc → List Nat
  | .mk n _ _ _ _ _ _ => n

def ClassDesc.serialVersionUID : ClassDesc → List Nat
  | .mk _ u _ _ _ _ _ => u

def ClassDesc.flags : ClassDesc → Nat
  | .mk _ _ f _ _ _ _ => f

def ClassDesc.isEnum : ClassDesc → Bool
  | .mk _ _ _ e _ _ _ => e

def ClassDesc.fields : ClassDesc → List FieldDesc
  | .mk _ _ _ _ fs _ _ => fs

def ClassDesc.annots : ClassDesc → List JValue
  | .mk _ _ _ _ _ a _ => a

def ClassDesc.sup : ClassDesc → JValue
  | .mk _ _ _ _ _ _ s => s

def ObjectDesc.cls : ObjectDesc → ClassDesc
  | .mk c _ _ => c

def ObjectDesc.ext : ObjectDesc → List (List Nat × List (List Nat × JValue))
  | .mk _ e _ => e

def ObjectDesc.fields : ObjectDesc → List (List Nat × JValue)
  | .mk _ _ f => f

def ArrayDesc.cls : ArrayDesc → ClassDesc
  | .mk c _ => c

def ArrayDesc.elems : ArrayDesc → List JValue
  | .mk _ e => e

/-- A field map (a JavaScript object used as a string-keyed record). -/
abbrev FMap := List (List Nat × JValue)

/-- Association-list lookup with JavaScript object semantics: the value of
the last matching assignment wins. -/
def alookup {β : Type} (l : List (List Nat × β)) (k : List Nat) : Option β :=
  l.foldl (fun a p => if p.1 = k then some p.2 else a) none

/-- Assignment `o[k] = v` on a JavaScript object: overwrite in place when the
key exists, append otherwise. -/
def aset {β : Type} (l : List (List Nat × β)) (k : List Nat) (v : β) :
    List (List Nat × β) :=
  if (alookup l k).isSome then l.map (fun p => if p.1 = k then (k, v) else p)
  else l ++ [(k, v)]

/-- ASCII bytes of a literal string. -/
def jstr (s : String) : List Nat := s.data.map Char.toNat

/-- Error kinds raised by the parser; each corresponds to one `throw`
site in the source (plus `outOfFuel` for the fuel instrumentation). -/
inductive PErr where
  | prematureEnd (pos : Nat)
  | badMagic
  | badVersion
  | unknownType (b : Nat)
  | notAllowed (name : Option String)
  | noHandler (name : Option String)
  | longString
  | externalizable
  | unknownFlags (flags : Nat)
  | unknownFieldType (t : Option Nat)
  | invalidArrayLength (len : Int)
  | typeError
  | outOfFuel
  deriving DecidableEq

/-- Parser state: the buffer, the cursor, and the handle table. -/
structure PState where
  buf : List Nat
  pos : Nat
  nextHandle : Nat
  handles : Nat → Option (Option JValue)

/-- `step(len)`: advance the cursor, failing when it passes the end of the
buffer; returns the prior position. -/
def step (len : Nat) (st : PState) : Except PErr (Nat × PState) :=
  if st.pos + len > st.buf.length then .error (.prematureEnd (st.pos + len))
  else .ok (st.pos, { st with pos := st.pos + len })

/-- `chunk(len, enc)`: the next `len` bytes (encodings modelled as raw). -/
def chunk (len : Nat) (st : PState) : Except PErr (List Nat × PState) := do
  let (pos, st) ← step len st
  .ok ((st.buf.drop pos).take len, st)

def readUInt8 (st : PState) : Except PErr (Nat × PState) := do
  let (pos, st) ← step 1 st
  .ok (st.buf.getD pos 0, st)

def readInt8 (st : PState) : Except PErr (Int × PState) := do
  let (u, st) ← readUInt8 st
  .ok (if u < 0x80 then (u : Int) else (u : Int) - 0x100, st)

def readUInt16 (st : PState) : Except PErr (Nat × PState) := do
  let (pos, st) ← step 2 st
  .ok (st.buf.getD pos 0 * 0x100 + st.buf.getD (pos + 1) 0, st)

def readInt16 (st : PState) : Except PErr (Int × PState) := do
  let (u, st) ← readUInt16 st
  .ok (if u < 0x8000 then (u : Int) else (u : Int) - 0x10000, st)

def readUInt32 (st : PState) : Except PErr (Nat × PState) := do
  let (pos, st) ← step 4 st
  .ok (st.buf.getD pos 0 * 0x1000000 + st.buf.getD (pos + 1) 0 * 0x10000 +
       st.buf.getD (pos + 2) 0 * 0x100 + st.buf.getD (pos + 3) 0, st)

def readInt32 (st : PState) : Except PErr (Int × PState) := do
  let (u, st) ← readUInt32 st
  .ok (if u < 0x80000000 then (u : Int) else (u : Int) - 0x100000000, st)

/-- `readHex(len)` (the hex string is modelled by the raw bytes). -/
def readHex (len : Nat) (st : PState) : Except PErr (List Nat × PState) :=
  chunk len st

/-- `utf()`: u16 length, then that many bytes. -/
def utf (st : PState) : Except PErr (List Nat × PState) := do
  let (n, st) ← readUInt16 st
  chunk n st

/-- `utfLong()`: a u32 high half that must be zero, then a u32 length. -/
def utfLong (st : PState) : Except PErr (List Nat × PState) := do
  let (hi, st) ← readUInt32 st
  if hi ≠ 0 then .error .longString
  else do
    let (n, st) ← readUInt32 st
    chunk n st

/-- `newHandle(obj)`: store at index `nextHandle`, then increment it. -/
def newHandle (st : PState) (v : JValue) : PState :=
  { st with
    handles := fun j => if j = st.nextHandle then some (some v) else st.handles j,
    nextHandle := st.nextHandle + 1 }

/-- `newDeferredHandle()`, allocation part: reserve index `nextHandle` with a
`null` placeholder and increment. -/
def newDeferredHandle (st : PState) : PState :=
  { st with
    handles := fun j => if j = st.nextHandle then some none else st.handles j,
    nextHandle := st.nextHandle + 1 }

/-- The closure returned by `newDeferredHandle` (and the in-place completion
of a value that was stored while still being built): fill slot `idx`. -/
def assignHandle (st : PState) (idx : Nat) (v : JValue) : PState :=
  { st with handles := fun j => if j = idx then some (some v) else st.handles j }

/-- `this.handles[idx]` for a wire handle value: `undefined` for a cell that
was never assigned, `null` for a deferred placeholder, else the value. -/
def handleGet (st : PState) (i : Int) : JValue :=
  if i < 0 then .undef
  else
    match st.handles i.toNat with
    | none => .undef
    | some none => .null
    | some (some v) => v

/-- JavaScript truthiness on decoded values, used by
`if (cls.super) this.recursiveClassData(cls.super, obj)`.  Values that can
never reach that test (raw doubles and floats are never stored in the handle
table) are given the truthiness of a generic object. -/
def truthy : JValue → Bool
  | .null => false
  | .undef => false
  | .bool b => b
  | .int i => i ≠ 0
  | .long _ _ => true
  | .char _ => true
  | .double _ => true
  | .float _ => true
  | .str s => s ≠ []
  | .bytes _ => true
  | .list _ => true
  | .cls _ => true
  | .obj _ => true
  | .arr _ => true
  | .enumv _ _ => true
  | .endBlock => true

/-- The single-character codes for which a `prim<type>` handler exists:
B, C, D, F, I, J, S, Z, L and `[`. -/
def primHandlerOk : Option Nat → Bool
  | some tv => [0x42, 0x43, 0x44, 0x46, 0x49, 0x4A, 0x53, 0x5A, 0x4C, 0x5B].contains tv
  | none => false

/-- The identity test `annotation === endBlock` against the sentinel
object. -/
def isEndBlock : JValue → Bool
  | .endBlock => true
  | _ => false

/-- A registered post-processor, of the source's `ParseFunc` shape. -/
abbrev PostProc := ClassDesc → FMap → List JValue → FMap

/-- The `(className, serialVersionUID)` registry built by `Parser.register`
(the registered functions live outside the analysed sources). -/
abbrev Registry := List Nat → List Nat → Option PostProc

/-- The table `names`: handler names indexed by type code − 0x70. -/
def typeNames : List String :=
  ["Null", "Reference", "ClassDesc", "Object", "String", "Array", "Class",
   "BlockData", "EndBlockData", "Reset", "BlockDataLong", "Exception",
   "LongString", "ProxyClassDesc", "Enum"]

def parseNull (st : PState) : Except PErr (JValue × PState) :=
  .ok (.null, st)

def parseEndBlockData (st : PState) : Except PErr (JValue × PState) :=
  .ok (.endBlock, st)

def parseReference (st : PState) : Except PErr (JValue × PState) := do
  let (i, st) ← readInt32 st
  .ok (handleGet st i, st)

/-- `parseBlockData`: u8 length, then a slice taken WITHOUT the bounds check
of `step` — the source advances `this.pos += len` directly and
`Buffer.slice` clamps to the end of the buffer. -/
def parseBlockData (st : PState) : Except PErr (JValue × PState) := do
  let (len, st) ← readUInt8 st
  .ok (.bytes ((st.buf.drop st.pos).take len), { st with pos := st.pos + len })

/-- `parseBlockDataLong`: u32 length, same unchecked advance as
`parseBlockData`. -/
def parseBlockDataLong (st : PState) : Except PErr (JValue × PState) := do
  let (len, st) ← readUInt32 st
  .ok (.bytes ((st.buf.drop st.pos).take len), { st with pos := st.pos + len })

def parseString (st : PState) : Except PErr (JValue × PState) := do
  let (s, st) ← utf st
  .ok (.str s, newHandle st (.str s))

def parseLongString (st : PState) : Except PErr (JValue × PState) := do
  let (s, st) ← utfLong st
  .ok (.str s, newHandle st (.str s))

/-- The flattened-view loop `for (var name in fields) obj[name] = fields[name]`.
`class` and `extends` are non-writable own properties of the object
(defined with `value` only), so assigning them throws in strict mode. -/
def flattenInto (o : ObjectDesc) (g : FMap) : Except PErr ObjectDesc :=
  match g with
  | [] => .ok o
  | (k, v) :: rest =>
    if k = jstr "class" ∨ k = jstr "extends" then .error .typeError
    else flattenInto (ObjectDesc.mk o.cls o.ext (aset o.fields k v)) rest

mutual

/-- `content(allowed?)`: read one type code byte and dispatch. -/
def content (reg : Registry) : Nat → Option (List String) → PState →
    Except PErr (JValue × PState)
  | 0, _, _ => .error .outOfFuel
  | n + 1, allowed, st => do
    let (b, st) ← readUInt8 st
    if b < 0x70 ∨ 0x7F < b then .error (.unknownType b)
    else
      let name := typeNames.get? (b - 0x70)
      let permitted :=
        match allowed with
        | some al =>
          match name with
          | some s => al.contains s
          | none => false
        | none => true
      if !permitted then .error (.notAllowed name)
      else
        match name with
        | some "Null" => parseNull st
        | some "Reference" => parseReference st
        | some "ClassDesc" => parseClassDesc reg n st
        | some "Object" => parseObject reg n st
        | some "String" => parseString st
        | some "Array" => parseArray reg n st
        | some "Class" => parseClass reg n st
        | some "BlockData" => parseBlockData st
        | some "EndBlockData" => parseEndBlockData st
        | some "BlockDataLong" => parseBlockDataLong st
        | some "LongString" => parseLongString st
        | some "Enum" => parseEnum reg n st
        | other => .error (.noHandler other)

/-- `annotations(allowed?)`: content items until the `endBlock` sentinel;
the sentinel is consumed and not included. -/
def annotations (reg : Registry) : Nat → Option (List String) → PState →
    Except PErr (List JValue × PState)
  | 0, _, _ => .error .outOfFuel
  | n + 1, allowed, st => do
    let (a, st) ← content reg n allowed st
    if isEndBlock a then .ok ([], st)
    else do
      let (rest, st) ← annotations reg n allowed st
      .ok (a :: rest, st)

/-- `classDesc()`: a class-descriptor position. -/
def classDesc (reg : Registry) : Nat → PState → Except PErr (JValue × PState)
  | 0, _ => .error .outOfFuel
  | n + 1, st =>
    content reg n (some ["ClassDesc", "ProxyClassDesc", "Null", "Reference"]) st

/-- `parseClassDesc()`: name, UID, handle allocation, flags, fields,
annotations, super.  The slot receives the partially built descriptor at the
`newHandle` point and the completed descriptor at the end (in the source the
same mutable object is filled in place). -/
def parseClassDesc (reg : Registry) : Nat → PState → Except PErr (JValue × PState)
  | 0, _ => .error .outOfFuel
  | n + 1, st => do
    let (nm, st) ← utf st
    let (uid, st) ← readHex 8 st
    let idx := st.nextHandle
    let st := newHandle st (.cls (ClassDesc.mk nm uid 0 false [] [] .undef))
    let (flags, st) ← readUInt8 st
    let isE := decide (flags &&& 0x10 ≠ 0)
    let (count, st) ← readUInt16 st
    let (fs, st) ← fieldDescs reg n count st
    let (ans, st) ← annotations reg n none st
    let (supv, st) ← classDesc reg n st
    let c := ClassDesc.mk nm uid flags isE fs ans supv
    .ok (.cls c, assignHandle st idx (.cls c))

/-- The field-descriptor loop of `parseClassDesc`. -/
def fieldDescs (reg : Registry) : Nat → Nat → PState →
    Except PErr (List FieldDesc × PState)
  | 0, _, _ => .error .outOfFuel
  | _ + 1, 0, st => .ok ([], st)
  | n + 1, k + 1, st => do
    let (f, st) ← fieldDesc reg n st
    let (fs, st) ← fieldDescs reg n k st
    .ok (f :: fs, st)

/-- `fieldDesc()`: type code byte, name, and for `[` and `L` a nested
content item as `className`. -/
def fieldDesc (reg : Registry) : Nat → PState → Except PErr (FieldDesc × PState)
  | 0, _ => .error .outOfFuel
  | n + 1, st => do
    let (t, st) ← readUInt8 st
    let (nm, st) ← utf st
    if t = 0x5B ∨ t = 0x4C then do
      let (cn, st) ← content reg n none st
      .ok (FieldDesc.mk t nm (some cn), st)
    else .ok (FieldDesc.mk t nm none, st)

/-- `parseClass()`: a nested class-descriptor position whose result gets an
additional handle of its own. -/
def parseClass (reg : Registry) : Nat → PState → Except PErr (JValue × PState)
  | 0, _ => .error .outOfFuel
  | n + 1, st => do
    let (v, st) ← classDesc reg n st
    .ok (v, newHandle st v)

/-- `parseObject()`: descriptor, handle, then per-class data (the slot holds
the still-empty object while the class data is read). -/
def parseObject (reg : Registry) : Nat → PState → Except PErr (JValue × PState)
  | 0, _ => .error .outOfFuel
  | n + 1, st => do
    let (cv, st) ← classDesc reg n st
    match cv with
    | .cls c =>
      let idx := st.nextHandle
      let st := newHandle st (.obj (ObjectDesc.mk c [] []))
      let (o, st) ← recursiveClassData reg n (.cls c) (ObjectDesc.mk c [] []) st
      .ok (.obj o, assignHandle st idx (.obj o))
    | _ => .error .typeError

/-- `recursiveClassData(cls, obj)`: ancestors first (guarded by the
truthiness of `cls.super`), then this class's group, stored under
`extends[cls.name]` and copied into the flattened view.  A descriptor
position that produced a non-descriptor is fatal when traversed. -/
def recursiveClassData (reg : Registry) : Nat → JValue → ObjectDesc → PState →
    Except PErr (ObjectDesc × PState)
  | 0, _, _, _ => .error .outOfFuel
  | n + 1, cv, o, st =>
    match cv with
    | .cls c => do
      let (o, st) ←
        if truthy c.sup then recursiveClassData reg n c.sup o st else .ok (o, st)
      let (g, st) ← classdata reg n c st
      let o := ObjectDesc.mk o.cls (aset o.ext c.name g) o.fields
      match flattenInto o g with
      | .ok o => .ok (o, st)
      | .error e => .error e
    | _ => .error .typeError

/-- `classdata(cls)`: per-class data selected by the low nibble of the
flags. -/
def classdata (reg : Registry) : Nat → ClassDesc → PState →
    Except PErr (FMap × PState)
  | 0, _, _ => .error .outOfFuel
  | n + 1, c, st =>
    let postproc := reg c.name c.serialVersionUID
    match c.flags &&& 0x0F with
    | 0x02 => values reg n c.fields [] st
    | 0x03 => do
      let (res, st) ← values reg n c.fields [] st
      let (data, st) ← annotations reg n none st
      let res := aset res (jstr "@") (.list data)
      match postproc with
      | some p => .ok (p c res data, st)
      | none => .ok (res, st)
    | 0x04 => .error .externalizable
    | 0x0C => do
      let (a, st) ← annotations reg n none st
      .ok ([(jstr "@", JValue.list a)], st)
    | _ => .error (.unknownFlags c.flags)

/-- `values(cls)`: one `prim<type>` read per declared field, in field order,
assigned into the accumulator map. -/
def values (reg : Registry) : Nat → List FieldDesc → FMap → PState →
    Except PErr (FMap × PState)
  | 0, _, _, _ => .error .outOfFuel
  | _ + 1, [], acc, st => .ok (acc, st)
  | n + 1, f :: fs, acc, st => do
    let (v, st) ← readPrim reg n (some f.type) st
    values reg n fs (aset acc f.name v) st

/-- The `prim<type>` handlers, dispatched through `primHandler` (the
handler lookup by type-code character is rendered as an equality chain). -/
def readPrim (reg : Registry) : Nat → Option Nat → PState →
    Except PErr (JValue × PState)
  | 0, _, _ => .error .outOfFuel
  | n + 1, t, st =>
    match t with
    | some tv =>
      if tv = 0x42 then do -- primB
        let (i, st) ← readInt8 st
        .ok (.int i, st)
      else if tv = 0x43 then do -- primC
        let (u, st) ← readUInt16 st
        .ok (.char u, st)
      else if tv = 0x44 then do -- primD
        let (bs, st) ← chunk 8 st
        .ok (.double bs, st)
      else if tv = 0x46 then do -- primF
        let (bs, st) ← chunk 4 st
        .ok (.float bs, st)
      else if tv = 0x49 then do -- primI
        let (i, st) ← readInt32 st
        .ok (.int i, st)
      else if tv = 0x4A then do -- primJ
        let (hi, st) ← readUInt32 st
        let (lo, st) ← readUInt32 st
        .ok (.long hi lo, st)
      else if tv = 0x53 then do -- primS
        let (i, st) ← readInt16 st
        .ok (.int i, st)
      else if tv = 0x5A then do -- primZ
        let (i, st) ← readInt8 st
        .ok (.bool (decide (i ≠ 0)), st)
      else if tv = 0x4C then content reg n none st -- primL
      else if tv = 0x5B then content reg n none st -- prim[
      else .error (.unknownFieldType t)
    | none => .error (.unknownFieldType t)

/-- `parseArray()`: descriptor, handle, i32 length, handler for the second
character of the descriptor name, then the elements.  Installing a negative
length on a JavaScript array throws a RangeError. -/
def parseArray (reg : Registry) : Nat → PState → Except PErr (JValue × PState)
  | 0, _ => .error .outOfFuel
  | n + 1, st => do
    let (cv, st) ← classDesc reg n st
    match cv with
    | .cls c =>
      let idx := st.nextHandle
      let st := newHandle st (.arr (ArrayDesc.mk c []))
      let (len, st) ← readInt32 st
      let et := c.name.get? 1
      if primHandlerOk et then
        if len < 0 then .error (.invalidArrayLength len)
        else do
          let (elems, st) ← readElems reg n len.toNat et st
          .ok (.arr (ArrayDesc.mk c elems),
               assignHandle st idx (.arr (ArrayDesc.mk c elems)))
      else .error (.unknownFieldType et)
    | _ => .error .typeError

/-- The element loop of `parseArray`. -/
def readElems (reg : Registry) : Nat → Nat → Option Nat → PState →
    Except PErr (List JValue × PState)
  | 0, _, _, _ => .error .outOfFuel
  | _ + 1, 0, _, st => .ok ([], st)
  | n + 1, k + 1, t, st => do
    let (v, st) ← readPrim reg n t st
    let (vs, st) ← readElems reg n k t st
    .ok (v :: vs, st)

/-- `parseEnum()`: descriptor, a deferred (placeholder) handle, the constant
read as a content item, then the back-fill of the reserved slot. -/
def parseEnum (reg : Registry) : Nat → PState → Except PErr (JValue × PState)
  | 0, _ => .error .outOfFuel
  | n + 1, st => do
    let (cv, st) ← classDesc reg n st
    let idx := st.nextHandle
    let st := newDeferredHandle st
    let (constant, st) ← content reg n none st
    let v := JValue.enumv constant cv
    .ok (v, assignHandle st idx v)

/-- The constructor loop: top-level content items until the cursor reaches
(or passes) the end of the buffer. -/
def contentsLoop (reg : Registry) : Nat → PState →
    Except PErr (List JValue × PState)
  | 0, _ => .error .outOfFuel
  | n + 1, st =>
    if st.pos < st.buf.length then do
      let (v, st) ← content reg n none st
      let (rest, st) ← contentsLoop reg n st
      .ok (v :: rest, st)
    else .ok ([], st)

end

/-- The STREAM_MAGIC check. -/
def magic (st : PState) : Except PErr (Unit × PState) := do
  let (m, st) ← readUInt16 st
  if m = 0xACED then .ok ((), st) else .error .badMagic

/-- The STREAM_VERSION check. -/
def version (st : PState) : Except PErr (Unit × PState) := do
  let (v, st) ← readUInt16 st
  if v = 5 then .ok ((), st) else .error .badVersion

/-- The state a `Parser` starts from: position 0, next handle 0x7E0000,
empty handle table. -/
def initState (buf : List Nat) : PState :=
  { buf := buf, pos := 0, nextHandle := 0x7E0000, handles := fun _ => none }

/-- The whole constructor: magic, version, then the contents loop. -/
def parseStream (reg : Registry) (fuel : Nat) (buf : List Nat) :
    Except PErr (List JValue × PState) := do
  let (_, st) ← magic (initState buf)
  let (_, st) ← version st
  contentsLoop reg fuel st

/-- The empty post-processor registry (no `Parser.register` calls). -/
def emptyReg : Registry := fun _ _ => none

/-- Left-biased-on-`some` choice, the shape of a JavaScript object lookup
through layers of assignments. -/
def oor {α : Type} (a b : Option α) : Option α :=
  match a with
  | some v => some v
  | none => b

/-- The ancestor chain of a descriptor, root (oldest ancestor) first — the
order in which `recursiveClassData` processes the per-class data. -/
def chainOf : ClassDesc → List ClassDesc
  | .mk n u f e fs a sup =>
    (match sup with
     | .cls s => chainOf s
     | _ => []) ++ [ClassDesc.mk n u f e fs a sup]

/-- The value a field name ends up with after the groups `gs` are copied into
the flattened view in order: the last group containing the name wins. -/
def lastVal (gs : List FMap) (k : List Nat) : Option JValue :=
  gs.foldl (fun a g => oor (alookup g k) a) none

/-- Well-formedness of the handle table: allocated slots are exactly the
interval from the base 0x7E0000 (inclusive) to `nextHandle` (exclusive). -/
def WF (st : PState) : Prop :=
  0x7E0000 ≤ st.nextHandle ∧
  ∀ i, (st.handles i).isSome ↔ (0x7E0000 ≤ i ∧ i < st.nextHandle)

/-- A parser piece neither decreases `nextHandle` nor breaks `WF`. -/
def Pres {α : Type} (f : PState → Except PErr (α × PState)) : Prop :=
  ∀ st a st', f st = .ok (a, st') →
    st.nextHandle ≤ st'.nextHandle ∧ (WF st → WF st')

/-- A reader that moves only the cursor: handle table and counter retained. -/
def PosOnly {α : Type} (f : PState → Except PErr (α × PState)) : Prop :=
  ∀ st a st', f st = .ok (a, st') →
    st'.nextHandle = st.nextHandle ∧ st'.handles = st.handles

def uid0 : List Nat := [0, 0, 0, 0, 0, 0, 0, 0]

def streamHdr : List Nat := [0xAC, 0xED, 0x00, 0x05]

/-- A stream whose only top-level item is a bare EndBlockData marker. -/
def c4buf : List Nat := streamHdr ++ [0x78]

/-- An annotation-block position: a Null item, then the block terminator. -/
def c4wSt : PState :=
  { buf := [0x70, 0x78], pos := 0, nextHandle := 0x7E0000, handles := fun _ => none }

/-- A stream whose only content byte is the boundary type code 0x7F. -/
def c5buf : List Nat := streamHdr ++ [0x7F]

def c5wSt1 : PState :=
  { buf := [0x10], pos := 0, nextHandle := 0x7E0000, handles := fun _ => none }

def c5wSt2 : PState :=
  { buf := [0x7F], pos := 0, nextHandle := 0x7E0000, handles := fun _ => none }

/-- A BlockData item declaring 5 payload bytes with none remaining. -/
def c6buf : List Nat := streamHdr ++ [0x77, 0x05]

/-- A BlockDataLong item declaring 5 payload bytes with none remaining. -/
def c7buf : List Nat := streamHdr ++ [0x7A, 0x00, 0x00, 0x00, 0x05]

def c7St : PState :=
  { buf := [0x00, 0x00, 0x00, 0x05], pos := 0, nextHandle := 0x7E0000,
    handles := fun _ => none }

/-- A Reference to index 0x7E0000 in a stream that allocated no handles. -/
def c8buf : List Nat := streamHdr ++ [0x71, 0x00, 0x7E, 0x00, 0x00]

def c8wSt : PState :=
  { buf := [0x00, 0x7E, 0x00, 0x00], pos := 0, nextHandle := 0x7E0000,
    handles := fun _ => none }

def c8wSt2 : PState :=
  { buf := [0x00, 0x7E, 0x00, 0x00], pos := 4, nextHandle := 0x7E0000,
    handles := fun _ => none }

/-- An Array item whose class descriptor is named "XI": the name does not
begin with a bracket, yet the element type code (second character, `I`)
dispatches fine; one i32 element with value 5 follows. -/
def c9buf : List Nat :=
  streamHdr ++ [0x75, 0x72, 0x00, 0x02, 0x58, 0x49] ++ uid0 ++
    [0x02, 0x00, 0x00, 0x78, 0x70, 0x00, 0x00, 0x00, 0x01, 0x00, 0x00, 0x00, 0x05]

/-- The descriptor `parseClassDesc` builds for the "XI" class above
(`[0x58, 0x49]` is the byte string "XI"). -/
def c9cls : ClassDesc := ClassDesc.mk [0x58, 0x49] uid0 2 false [] [] .null

/-- The snapshot of the "XI" descriptor at its `newHandle` point. -/
def c9snap : ClassDesc := ClassDesc.mk [0x58, 0x49] uid0 0 false [] [] JValue.undef

/-- `c9buf` cursor states: after the magic, after the version (= the start
of the top-level content loop), and after the 0x75 type code. -/
def c9mSt : PState :=
  { buf := c9buf, pos := 2, nextHandle := 0x7E0000, handles := fun _ => none }

def c9vSt : PState :=
  { buf := c9buf, pos := 4, nextHandle := 0x7E0000, handles := fun _ => none }

def c9St : PState :=
  { buf := c9buf, pos := 5, nextHandle := 0x7E0000, handles := fun _ => none }

/-- The final state of the `c9buf` parse: descriptor at slot 0x7E0000 (its
snapshot overwritten by the completed descriptor), array at slot 0x7E0001. -/
def c9endSt : PState :=
  { buf := c9buf, pos := 31, nextHandle := 0x7E0002,
    handles := fun j =>
      if j = 0x7E0001 then some (some (.arr (ArrayDesc.mk c9cls [.int 5])))
      else if j = 0x7E0001 then some (some (.arr (ArrayDesc.mk c9cls [])))
      else if j = 0x7E0000 then some (some (.cls c9cls))
      else if j = 0x7E0000 then some (some (.cls c9snap))
      else none }

/-- Like `c9buf` but with the wire length i32 = -1 and no elements. -/
def c10buf : List Nat :=
  streamHdr ++ [0x75, 0x72, 0x00, 0x02, 0x58, 0x49] ++ uid0 ++
    [0x02, 0x00, 0x00, 0x78, 0x70, 0xFF, 0xFF, 0xFF, 0xFF]

def c10St : PState :=
  { buf := c10buf, pos := 5, nextHandle := 0x7E0000, handles := fun _ => none }

/-- The state of `c10buf` after its class descriptor has been read. -/
def c10aSt : PState :=
  { buf := c10buf, pos := 23, nextHandle := 0x7E0001,
    handles := fun j =>
      if j = 0x7E0000 then some (some (.cls (ClassDesc.mk [0x58, 0x49] uid0 2 false [] []
        (.null : JValue))))
      else if j = 0x7E0000 then some (some (.cls c9snap))
      else none }

/-- The state of `c10buf` after the array slot and the length read. -/
def c10bSt : PState :=
  { buf := c10buf, pos := 27, nextHandle := 0x7E0002,
    handles := fun j =>
      if j = 0x7E0001 then
        some (some (.arr (ArrayDesc.mk (ClassDesc.mk [0x58, 0x49] uid0 2 false [] []
          (.null : JValue)) [])))
      else c10aSt.handles j }

/-- An Object stream whose class descriptor "A" carries one annotation: a
Reference to index 0x7E0001, the index the object itself will occupy. -/
def c3buf : List Nat :=
  streamHdr ++ [0x73, 0x72, 0x00, 0x01, 0x41] ++ uid0 ++
    [0x02, 0x00, 0x00, 0x71, 0x00, 0x7E, 0x00, 0x01, 0x78, 0x70]

/-- The completed "A" descriptor: its annotation list holds `undefined`,
the value the forward reference produced. -/
def c3cA : ClassDesc := ClassDesc.mk [0x41] uid0 2 false [] [JValue.undef] .null

def c3snap : ClassDesc := ClassDesc.mk [0x41] uid0 0 false [] [] JValue.undef

/-- The parsed object: class "A", one empty per-ancestor group, no fields. -/
def c3obj : ObjectDesc := ObjectDesc.mk c3cA [([0x41], [])] []

def c3mSt : PState :=
  { buf := c3buf, pos := 2, nextHandle := 0x7E0000, handles := fun _ => none }

def c3vSt : PState :=
  { buf := c3buf, pos := 4, nextHandle := 0x7E0000, handles := fun _ => none }

def c3endSt : PState :=
  { buf := c3buf, pos := 27, nextHandle := 0x7E0002,
    handles := fun j =>
      if j = 0x7E0001 then some (some (.obj c3obj))
      else if j = 0x7E0001 then some (some (.obj (ObjectDesc.mk c3cA [] [])))
      else if j = 0x7E0000 then some (some (.cls c3cA))
      else if j = 0x7E0000 then some (some (.cls c3snap))
      else none }

/-- The enum stream `SomeEnum-like "E" constant "ONE"` and the state at
which `parseEnum` starts (after the header and the 0x7E type code). -/
def enumBuf : List Nat :=
  streamHdr ++ [0x7E, 0x72, 0x00, 0x01, 0x45] ++ uid0 ++
    [0x12, 0x00, 0x00, 0x78, 0x70, 0x74, 0x00, 0x03, 0x4F, 0x4E, 0x45]

def enumPSt : PState :=
  { buf := enumBuf, pos := 5, nextHandle := 0x7E0000, handles := fun _ => none }

/-- The state a parse of the bare 4-byte header ends in. -/
def hdrEndSt : PState :=
  { buf := streamHdr, pos := 4, nextHandle := 0x7E0000, handles := fun _ => none }

def c3st5 : PState :=
  { buf := c3buf, pos := 5, nextHandle := 0x7E0000, handles := fun _ => none }

/-- The state right after the object's class descriptor has been parsed:
slot 0x7E0000 holds the snapshot, overwritten by the completed
descriptor. -/
def c3stA : PState :=
  { buf := c3buf, pos := 27, nextHandle := 0x7E0001,
    handles := fun j =>
      if j = 0x7E0000 then some (some (.cls c3cA))
      else if j = 0x7E0000 then some (some (.cls c3snap))
      else none }

/-- A two-class chain for exercising the flattening rules: base "B" and
derived "D" each declare an int field "foo". -/
def c2cB : ClassDesc :=
  ClassDesc.mk [0x42] [0, 0, 0, 0, 0, 0, 0, 1] 2 false
    [FieldDesc.mk 0x49 [0x66, 0x6F, 0x6F] none] [] .null

def c2cD : ClassDesc :=
  ClassDesc.mk [0x44] [0, 0, 0, 0, 0, 0, 0, 2] 2 false
    [FieldDesc.mk 0x49 [0x66, 0x6F, 0x6F] none] [] (.cls c2cB)

def c2o0 : ObjectDesc := ObjectDesc.mk c2cD [] []

def c2St : PState :=
  { buf := [0, 0, 0, 123, 0, 0, 1, 89], pos := 0, nextHandle := 0x7E0000,
    handles := fun _ => none }

/-- A minimal state and a class-maker for exercising the flag dispatch. -/
def c1St : PState :=
  { buf := [0x78, 0x00], pos := 0, nextHandle := 0x7E0000,
    handles := fun _ => none }

def c1mk (f : Nat) : ClassDesc := ClassDesc.mk [0x43] uid0 f false [] [] .null

/-! ### Proof infrastructure -/

/-- Inversion for a successful `Except` bind. -/
theorem bindOk {α β : Type} {x : Except PErr α} {f : α → Except PErr β} {r : β}
    (h : x.bind f = .ok r) : ∃ a, x = .ok a ∧ f a = .ok r := by
  cases x with
  | error e => simp [Except.bind] at h
  | ok a => exact ⟨a, rfl, h⟩

@[simp] theorem oor_some {α : Type} (v : α) (b : Option α) :
    oor (some v) b = some v := rfl

@[simp] theorem oor_none {α : Type} (b : Option α) : oor none b = b := rfl

theorem oor_assoc {α : Type} (a b c : Option α) :
    oor (oor a b) c = oor a (oor b c) := by
  cases a <;> rfl

theorem alookup_foldl_init {β : Type} (l : List (List Nat × β)) (k : List Nat) :
    ∀ init : Option β,
      l.foldl (fun a p => if p.1 = k then some p.2 else a) init =
        oor (alookup l k) init := by
  induction l with
  | nil => intro init; simp [alookup]
  | cons p rest ih =>
    intro init
    show rest.foldl _ (if p.1 = k then some p.2 else init) = _
    rw [ih]
    have hl : alookup (p :: rest) k =
        oor (alookup rest k) (if p.1 = k then some p.2 else none) := by
      show rest.foldl _ (if p.1 = k then some p.2 else none) = _
      rw [ih]
    rw [hl, oor_assoc]
    by_cases hp : p.1 = k <;> simp [hp]

theorem alookup_cons {β : Type} (p : List Nat × β) (l : List (List Nat × β))
    (k : List Nat) :
    alookup (p :: l) k = oor (alookup l k) (if p.1 = k then some p.2 else none) := by
  show l.foldl _ (if p.1 = k then some p.2 else none) = _
  rw [alookup_foldl_init]

theorem alookup_append {β : Type} (l₁ l₂ : List (List Nat × β)) (k : List Nat) :
    alookup (l₁ ++ l₂) k = oor (alookup l₂ k) (alookup l₁ k) := by
  show (l₁ ++ l₂).foldl _ none = _
  rw [List.foldl_append, alookup_foldl_init]
  rfl

theorem alookup_map_set_none {β : Type} {l : List (List Nat × β)} {k : List Nat}
    (v : β) (h : alookup l k = none) :
    alookup (l.map fun p => if p.1 = k then (k, v) else p) k = none := by
  induction l with
  | nil => simp [alookup]
  | cons p rest ih =>
    rw [alookup_cons] at h
    have h1 : alookup rest k = none := by
      cases hx : alookup rest k with
      | none => rfl
      | some w => rw [hx] at h; simp [oor] at h
    have h2 : p.1 ≠ k := by
      intro hp
      rw [h1, if_pos hp] at h
      simp [oor] at h
    rw [List.map_cons, alookup_cons, ih h1, if_neg h2, oor_none, if_neg h2]

theorem alookup_map_set_self {β : Type} {l : List (List Nat × β)} {k : List Nat}
    (v : β) (h : (alookup l k).isSome) :
    alookup (l.map fun p => if p.1 = k then (k, v) else p) k = some v := by
  induction l with
  | nil => simp [alookup] at h
  | cons p rest ih =>
    rw [alookup_cons] at h
    rw [List.map_cons, alookup_cons]
    by_cases hp : p.1 = k
    · rw [if_pos hp]
      show oor _ (if (k, v).1 = k then some (k, v).2 else none) = some v
      rw [if_pos rfl]
      cases hrk : alookup rest k with
      | some w =>
        rw [ih (by rw [hrk]; rfl)]
        rfl
      | none =>
        rw [alookup_map_set_none v hrk]
        rfl
    · rw [if_neg hp] at h ⊢
      have hrk : (alookup rest k).isSome := by
        cases hx : alookup rest k with
        | some w => rfl
        | none => rw [hx] at h; simp [oor] at h
      show oor _ (if p.1 = k then some p.2 else none) = some v
      rw [ih hrk, if_neg hp]
      rfl

theorem alookup_map_set_ne {β : Type} (l : List (List Nat × β)) (k k' : List Nat)
    (v : β) (hne : k' ≠ k) :
    alookup (l.map fun p => if p.1 = k then (k, v) else p) k' = alookup l k' := by
  induction l with
  | nil => rfl
  | cons p rest ih =>
    rw [List.map_cons, alookup_cons, alookup_cons, ih]
    by_cases hp : p.1 = k
    · rw [if_pos hp]
      show oor _ (if (k, v).1 = k' then some (k, v).2 else none) = _
      rw [if_neg (by exact fun hh => hne (hh ▸ rfl)), if_neg (by rw [hp]; exact fun hh => hne hh.symm)]
    · rw [if_neg hp]

theorem alookup_aset_self {β : Type} (l : List (List Nat × β)) (k : List Nat)
    (v : β) : alookup (aset l k v) k = some v := by
  unfold aset
  split
  · next hs => exact alookup_map_set_self v hs
  · rw [alookup_append, alookup_cons]
    simp [alookup, oor]

theorem alookup_aset_ne {β : Type} (l : List (List Nat × β)) (k k' : List Nat)
    (v : β) (hne : k' ≠ k) : alookup (aset l k v) k' = alookup l k' := by
  unfold aset
  split
  · exact alookup_map_set_ne l k k' v hne
  · rw [alookup_append, alookup_cons]
    show oor (oor (alookup [] k') _) _ = _
    rw [if_neg (by exact fun hh => hne (by simpa using hh.symm))]
    simp [alookup, oor]

theorem oor_none_right {α : Type} (a : Option α) : oor a none = a := by
  cases a <;> rfl

theorem lastVal_foldl_init (gs : List FMap) (k : List Nat) :
    ∀ init : Option JValue,
      gs.foldl (fun a g => oor (alookup g k) a) init = oor (lastVal gs k) init := by
  induction gs with
  | nil => intro init; simp [lastVal]
  | cons g rest ih =>
    intro init
    show rest.foldl _ (oor (alookup g k) init) = _
    rw [ih]
    have hl : lastVal (g :: rest) k = oor (lastVal rest k) (alookup g k) := by
      show rest.foldl _ (oor (alookup g k) none) = _
      rw [ih, oor_none_right]
    rw [hl, oor_assoc]

theorem lastVal_append (gs₁ gs₂ : List FMap) (k : List Nat) :
    lastVal (gs₁ ++ gs₂) k = oor (lastVal gs₂ k) (lastVal gs₁ k) := by
  show (gs₁ ++ gs₂).foldl _ none = _
  rw [List.foldl_append, lastVal_foldl_init]
  rfl

theorem lastVal_single (g : FMap) (k : List Nat) : lastVal [g] k = alookup g k :=
  oor_none_right _

/-- `flattenInto` keeps `class`/`extends` and rewrites only the flattened
field view, last assignment winning. -/
theorem flattenInto_ok (g : FMap) : ∀ (o o2 : ObjectDesc),
    flattenInto o g = .ok o2 →
      o2.cls = o.cls ∧ o2.ext = o.ext ∧
      ∀ k, alookup o2.fields k = oor (alookup g k) (alookup o.fields k) := by
  induction g with
  | nil =>
    intro o o2 h
    cases h
    exact ⟨rfl, rfl, fun k => by simp [alookup, oor]⟩
  | cons p rest ih =>
    intro o o2 h
    unfold flattenInto at h
    split at h
    · cases h
    · obtain ⟨h1, h2, h3⟩ := ih _ _ h
      refine ⟨h1, h2, fun k => ?_⟩
      have h3k : alookup o2.fields k =
          oor (alookup rest k) (alookup (aset o.fields p.1 p.2) k) := h3 k
      rw [h3k, alookup_cons]
      by_cases hk : p.1 = k
      · subst hk
        rw [alookup_aset_self, if_pos rfl]
        cases alookup rest p.1 <;> cases alookup o.fields p.1 <;> rfl
      · rw [alookup_aset_ne _ _ _ _ (fun hh => hk hh.symm), if_neg hk, oor_none_right]

theorem wf_newHandle {st : PState} (h : WF st) (v : JValue) : WF (newHandle st v) := by
  obtain ⟨h1, h2⟩ := h
  constructor
  · show 0x7E0000 ≤ st.nextHandle + 1
    exact Nat.le_succ_of_le h1
  · intro i
    show (if i = st.nextHandle then some (some v) else st.handles i).isSome ↔
      0x7E0000 ≤ i ∧ i < st.nextHandle + 1
    by_cases hi : i = st.nextHandle
    · subst hi
      simp [h1, Nat.lt_succ_self]
    · rw [if_neg hi, h2 i]
      constructor
      · rintro ⟨ha, hb⟩; exact ⟨ha, Nat.lt_succ_of_lt hb⟩
      · rintro ⟨ha, hb⟩
        exact ⟨ha, Nat.lt_of_le_of_ne (Nat.le_of_lt_succ hb) hi⟩

theorem wf_newDeferredHandle {st : PState} (h : WF st) : WF (newDeferredHandle st) := by
  obtain ⟨h1, h2⟩ := h
  constructor
  · show 0x7E0000 ≤ st.nextHandle + 1
    exact Nat.le_succ_of_le h1
  · intro i
    show (if i = st.nextHandle then some none else st.handles i).isSome ↔
      0x7E0000 ≤ i ∧ i < st.nextHandle + 1
    by_cases hi : i = st.nextHandle
    · subst hi
      simp [h1, Nat.lt_succ_self]
    · rw [if_neg hi, h2 i]
      constructor
      · rintro ⟨ha, hb⟩; exact ⟨ha, Nat.lt_succ_of_lt hb⟩
      · rintro ⟨ha, hb⟩
        exact ⟨ha, Nat.lt_of_le_of_ne (Nat.le_of_lt_succ hb) hi⟩

theorem wf_assignHandle {st : PState} (h : WF st) (idx : Nat) (v : JValue)
    (h1 : 0x7E0000 ≤ idx) (h2 : idx < st.nextHandle) :
    WF (assignHandle st idx v) := by
  obtain ⟨ha, hb⟩ := h
  constructor
  · show 0x7E0000 ≤ st.nextHandle
    exact ha
  · intro i
    show (if i = idx then some (some v) else st.handles i).isSome ↔
      0x7E0000 ≤ i ∧ i < st.nextHandle
    by_cases hi : i = idx
    · subst hi; simp [h1, h2]
    · rw [if_neg hi]; exact hb i

theorem wf_of_eq {st st' : PState} (hn : st'.nextHandle = st.nextHandle)
    (hh : st'.handles = st.handles) (h : WF st) : WF st' := by
  obtain ⟨h1, h2⟩ := h
  constructor
  · rw [hn]; exact h1
  · intro i; rw [hh, hn]; exact h2 i

theorem presOfPosOnly {α : Type} {f : PState → Except PErr (α × PState)}
    (hf : PosOnly f) : Pres f := by
  intro st a st' h
  obtain ⟨hn, hh⟩ := hf st a st' h
  exact ⟨Nat.le_of_eq hn.symm, wf_of_eq hn hh⟩

theorem posOnly_step (len : Nat) : PosOnly (step len) := by
  intro st a st' h
  unfold step at h
  split at h
  · cases h
  · cases h; exact ⟨rfl, rfl⟩

theorem posOnly_chunk (len : Nat) : PosOnly (chunk len) := by
  intro st a st' h
  obtain ⟨⟨pos, st1⟩, h1, h2⟩ := bindOk h
  cases h2
  exact posOnly_step len st _ _ h1

theorem posOnly_readUInt8 : PosOnly readUInt8 := by
  intro st a st' h
  obtain ⟨⟨pos, st1⟩, h1, h2⟩ := bindOk h
  cases h2
  exact posOnly_step 1 st _ _ h1

theorem posOnly_readInt8 : PosOnly readInt8 := by
  intro st a st' h
  obtain ⟨⟨u, st1⟩, h1, h2⟩ := bindOk h
  cases h2
  exact posOnly_readUInt8 st _ _ h1

theorem posOnly_readUInt16 : PosOnly readUInt16 := by
  intro st a st' h
  obtain ⟨⟨pos, st1⟩, h1, h2⟩ := bindOk h
  cases h2
  exact posOnly_step 2 st _ _ h1

theorem posOnly_readInt16 : PosOnly readInt16 := by
  intro st a st' h
  obtain ⟨⟨u, st1⟩, h1, h2⟩ := bindOk h
  cases h2
  exact posOnly_readUInt16 st _ _ h1

theorem posOnly_readUInt32 : PosOnly readUInt32 := by
  intro st a st' h
  obtain ⟨⟨pos, st1⟩, h1, h2⟩ := bindOk h
  cases h2
  exact posOnly_step 4 st _ _ h1

theorem posOnly_readInt32 : PosOnly readInt32 := by
  intro st a st' h
  obtain ⟨⟨u, st1⟩, h1, h2⟩ := bindOk h
  cases h2
  exact posOnly_readUInt32 st _ _ h1

theorem posOnly_readHex (len : Nat) : PosOnly (readHex len) :=
  posOnly_chunk len

theorem posOnly_utf : PosOnly utf := by
  intro st a st' h
  obtain ⟨⟨n, st1⟩, h1, h2⟩ := bindOk h
  obtain ⟨e1, e2⟩ := posOnly_readUInt16 st n st1 h1
  obtain ⟨e3, e4⟩ := posOnly_chunk n st1 a st' h2
  exact ⟨e3.trans e1, e4.trans e2⟩

theorem posOnly_utfLong : PosOnly utfLong := by
  intro st a st' h
  obtain ⟨⟨hi, st1⟩, h1, h⟩ := bindOk h
  obtain ⟨e1, e2⟩ := posOnly_readUInt32 st hi st1 h1
  dsimp only at h
  by_cases hhi : hi ≠ 0
  · rw [if_pos hhi] at h; cases h
  · rw [if_neg hhi] at h
    obtain ⟨⟨n, st2⟩, h2, h⟩ := bindOk h
    obtain ⟨e3, e4⟩ := posOnly_readUInt32 st1 n st2 h2
    obtain ⟨e5, e6⟩ := posOnly_chunk n st2 a st' h
    exact ⟨(e5.trans e3).trans e1, (e6.trans e4).trans e2⟩

theorem posOnly_parseBlockData : PosOnly parseBlockData := by
  intro st a st' h
  obtain ⟨⟨len, st1⟩, h1, h2⟩ := bindOk h
  dsimp only at h2
  cases h2
  obtain ⟨e1, e2⟩ := posOnly_readUInt8 st _ _ h1
  exact ⟨e1, e2⟩

theorem posOnly_parseBlockDataLong : PosOnly parseBlockDataLong := by
  intro st a st' h
  obtain ⟨⟨len, st1⟩, h1, h2⟩ := bindOk h
  dsimp only at h2
  cases h2
  obtain ⟨e1, e2⟩ := posOnly_readUInt32 st _ _ h1
  exact ⟨e1, e2⟩

theorem posOnly_parseReference : PosOnly parseReference := by
  intro st a st' h
  obtain ⟨⟨i, st1⟩, h1, h2⟩ := bindOk h
  cases h2
  exact posOnly_readInt32 st _ _ h1

theorem posOnly_parseNull : PosOnly parseNull := by
  intro st a st' h
  cases h
  exact ⟨rfl, rfl⟩

theorem posOnly_parseEndBlockData : PosOnly parseEndBlockData := by
  intro st a st' h
  cases h
  exact ⟨rfl, rfl⟩

theorem pres_parseString : Pres parseString := by
  intro st a st' h
  obtain ⟨⟨s, st1⟩, h1, h2⟩ := bindOk h
  cases h2
  obtain ⟨e1, e2⟩ := posOnly_utf st s st1 h1
  constructor
  · show st.nextHandle ≤ st1.nextHandle + 1
    rw [e1]; exact Nat.le_succ _
  · intro hwf
    exact wf_newHandle (wf_of_eq e1 e2 hwf) _

theorem pres_parseLongString : Pres parseLongString := by
  intro st a st' h
  obtain ⟨⟨s, st1⟩, h1, h2⟩ := bindOk h
  cases h2
  obtain ⟨e1, e2⟩ := posOnly_utfLong st s st1 h1
  constructor
  · show st.nextHandle ≤ st1.nextHandle + 1
    rw [e1]; exact Nat.le_succ _
  · intro hwf
    exact wf_newHandle (wf_of_eq e1 e2 hwf) _

/-! Unfold equations for the fuel-indexed parsers, one `rfl` each. -/

theorem content_zero (reg : Registry) (allowed : Option (List String)) (st : PState) :
    content reg 0 allowed st = .error .outOfFuel := rfl

theorem content_succ (reg : Registry) (n : Nat) (allowed : Option (List String))
    (st : PState) :
    content reg (n + 1) allowed st = (do
      let (b, st) ← readUInt8 st
      if b < 0x70 ∨ 0x7F < b then .error (.unknownType b)
      else
        let name := typeNames.get? (b - 0x70)
        let permitted :=
          match allowed with
          | some al =>
            match name with
            | some s => al.contains s
            | none => false
          | none => true
        if !permitted then .error (.notAllowed name)
        else
          match name with
          | some "Null" => parseNull st
          | some "Reference" => parseReference st
          | some "ClassDesc" => parseClassDesc reg n st
          | some "Object" => parseObject reg n st
          | some "String" => parseString st
          | some "Array" => parseArray reg n st
          | some "Class" => parseClass reg n st
          | some "BlockData" => parseBlockData st
          | some "EndBlockData" => parseEndBlockData st
          | some "BlockDataLong" => parseBlockDataLong st
          | some "LongString" => parseLongString st
          | some "Enum" => parseEnum reg n st
          | other => .error (.noHandler other)) := rfl

theorem annotations_succ (reg : Registry) (n : Nat) (allowed : Option (List String))
    (st : PState) :
    annotations reg (n + 1) allowed st = (do
      let (a, st) ← content reg n allowed st
      if isEndBlock a then .ok ([], st)
      else do
        let (rest, st) ← annotations reg n allowed st
        .ok (a :: rest, st)) := rfl

theorem classDesc_succ (reg : Registry) (n : Nat) (st : PState) :
    classDesc reg (n + 1) st =
      content reg n (some ["ClassDesc", "ProxyClassDesc", "Null", "Reference"]) st := rfl

theorem parseClassDesc_succ (reg : Registry) (n : Nat) (st : PState) :
    parseClassDesc reg (n + 1) st = (do
      let (nm, st) ← utf st
      let (uid, st) ← readHex 8 st
      let idx := st.nextHandle
      let st := newHandle st (.cls (ClassDesc.mk nm uid 0 false [] [] .undef))
      let (flags, st) ← readUInt8 st
      let isE := decide (flags &&& 0x10 ≠ 0)
      let (count, st) ← readUInt16 st
      let (fs, st) ← fieldDescs reg n count st
      let (ans, st) ← annotations reg n none st
      let (supv, st) ← classDesc reg n st
      let c := ClassDesc.mk nm uid flags isE fs ans supv
      .ok (.cls c, assignHandle st idx (.cls c))) := rfl

theorem fieldDescs_succ_zero (reg : Registry) (n : Nat) (st : PState) :
    fieldDescs reg (n + 1) 0 st = .ok ([], st) := rfl

theorem fieldDescs_succ_succ (reg : Registry) (n k : Nat) (st : PState) :
    fieldDescs reg (n + 1) (k + 1) st = (do
      let (f, st) ← fieldDesc reg n st
      let (fs, st) ← fieldDescs reg n k st
      .ok (f :: fs, st)) := rfl

theorem fieldDesc_succ (reg : Registry) (n : Nat) (st : PState) :
    fieldDesc reg (n + 1) st = (do
      let (t, st) ← readUInt8 st
      let (nm, st) ← utf st
      if t = 0x5B ∨ t = 0x4C then do
        let (cn, st) ← content reg n none st
        .ok (FieldDesc.mk t nm (some cn), st)
      else .ok (FieldDesc.mk t nm none, st)) := rfl

theorem parseClass_succ (reg : Registry) (n : Nat) (st : PState) :
    parseClass reg (n + 1) st = (do
      let (v, st) ← classDesc reg n st
      .ok (v, newHandle st v)) := rfl

theorem parseObject_succ (reg : Registry) (n : Nat) (st : PState) :
    parseObject reg (n + 1) st = (do
      let (cv, st) ← classDesc reg n st
      match cv with
      | .cls c =>
        let idx := st.nextHandle
        let st := newHandle st (.obj (ObjectDesc.mk c [] []))
        let (o, st) ← recursiveClassData reg n (.cls c) (ObjectDesc.mk c [] []) st
        .ok (.obj o, assignHandle st idx (.obj o))
      | _ => .error .typeError) := rfl

theorem recursiveClassData_succ (reg : Registry) (n : Nat) (cv : JValue)
    (o : ObjectDesc) (st : PState) :
    recursiveClassData reg (n + 1) cv o st =
      (match cv with
      | .cls c => do
        let (o, st) ←
          if truthy c.sup then recursiveClassData reg n c.sup o st else .ok (o, st)
        let (g, st) ← classdata reg n c st
        let o := ObjectDesc.mk o.cls (aset o.ext c.name g) o.fields
        match flattenInto o g with
        | .ok o => .ok (o, st)
        | .error e => .error e
      | _ => .error .typeError) := rfl

theorem classdata_succ (reg : Registry) (n : Nat) (c : ClassDesc) (st : PState) :
    classdata reg (n + 1) c st =
      (let postproc := reg c.name c.serialVersionUID
      match c.flags &&& 0x0F with
      | 0x02 => values reg n c.fields [] st
      | 0x03 => do
        let (res, st) ← values reg n c.fields [] st
        let (data, st) ← annotations reg n none st
        let res := aset res (jstr "@") (.list data)
        match postproc with
        | some p => .ok (p c res data, st)
        | none => .ok (res, st)
      | 0x04 => .error .externalizable
      | 0x0C => do
        let (a, st) ← annotations reg n none st
        .ok ([(jstr "@", JValue.list a)], st)
      | _ => .error (.unknownFlags c.flags)) := rfl

theorem values_succ_nil (reg : Registry) (n : Nat) (acc : FMap) (st : PState) :
    values reg (n + 1) [] acc st = .ok (acc, st) := rfl

theorem values_succ_cons (reg : Registry) (n : Nat) (f : FieldDesc)
    (fs : List FieldDesc) (acc : FMap) (st : PState) :
    values reg (n + 1) (f :: fs) acc st = (do
      let (v, st) ← readPrim reg n (some f.type) st
      values reg n fs (aset acc f.name v) st) := rfl

theorem readPrim_succ (reg : Registry) (n : Nat) (t : Option Nat) (st : PState) :
    readPrim reg (n + 1) t st =
      (match t with
      | some tv =>
        if tv = 0x42 then do
          let (i, st) ← readInt8 st
          .ok (.int i, st)
        else if tv = 0x43 then do
          let (u, st) ← readUInt16 st
          .ok (.char u, st)
        else if tv = 0x44 then do
          let (bs, st) ← chunk 8 st
          .ok (.double bs, st)
        else if tv = 0x46 then do
          let (bs, st) ← chunk 4 st
          .ok (.float bs, st)
        else if tv = 0x49 then do
          let (i, st) ← readInt32 st
          .ok (.int i, st)
        else if tv = 0x4A then do
          let (hi, st) ← readUInt32 st
          let (lo, st) ← readUInt32 st
          .ok (.long hi lo, st)
        else if tv = 0x53 then do
          let (i, st) ← readInt16 st
          .ok (.int i, st)
        else if tv = 0x5A then do
          let (i, st) ← readInt8 st
          .ok (.bool (decide (i ≠ 0)), st)
        else if tv = 0x4C then content reg n none st
        else if tv = 0x5B then content reg n none st
        else .error (.unknownFieldType t)
      | none => .error (.unknownFieldType t)) := rfl

theorem parseArray_succ (reg : Registry) (n : Nat) (st : PState) :
    parseArray reg (n + 1) st = (do
      let (cv, st) ← classDesc reg n st
      match cv with
      | .cls c =>
        let idx := st.nextHandle
        let st := newHandle st (.arr (ArrayDesc.mk c []))
        let (len, st) ← readInt32 st
        let et := c.name.get? 1
        if primHandlerOk et then
          if len < 0 then .error (.invalidArrayLength len)
          else do
            let (elems, st) ← readElems reg n len.toNat et st
            .ok (.arr (ArrayDesc.mk c elems),
                 assignHandle st idx (.arr (ArrayDesc.mk c elems)))
        else .error (.unknownFieldType et)
      | _ => .error .typeError) := rfl

theorem readElems_succ_zero (reg : Registry) (n : Nat) (t : Option Nat) (st : PState) :
    readElems reg (n + 1) 0 t st = .ok ([], st) := rfl

theorem readElems_succ_succ (reg : Registry) (n k : Nat) (t : Option Nat) (st : PState) :
    readElems reg (n + 1) (k + 1) t st = (do
      let (v, st) ← readPrim reg n t st
      let (vs, st) ← readElems reg n k t st
      .ok (v :: vs, st)) := rfl

theorem parseEnum_succ (reg : Registry) (n : Nat) (st : PState) :
    parseEnum reg (n + 1) st = (do
      let (cv, st) ← classDesc reg n st
      let idx := st.nextHandle
      let st := newDeferredHandle st
      let (constant, st) ← content reg n none st
      let v := JValue.enumv constant cv
      .ok (v, assignHandle st idx v)) := rfl

theorem contentsLoop_succ (reg : Registry) (n : Nat) (st : PState) :
    contentsLoop reg (n + 1) st =
      (if st.pos < st.buf.length then do
        let (v, st) ← content reg n none st
        let (rest, st) ← contentsLoop reg n st
        .ok (v :: rest, st)
      else .ok ([], st)) := rfl

theorem pres_chain {α : Type} {f : PState → Except PErr (α × PState)}
    (hf : Pres f) {st st1 : PState} (e1 : st1.nextHandle = st.nextHandle)
    (e2 : st1.handles = st.handles) {a : α} {st' : PState}
    (h : f st1 = .ok (a, st')) :
    st.nextHandle ≤ st'.nextHandle ∧ (WF st → WF st') := by
  obtain ⟨l1, l2⟩ := hf st1 a st' h
  exact ⟨Nat.le_of_eq e1.symm |>.trans l1, fun hwf => l2 (wf_of_eq e1 e2 hwf)⟩

set_option maxHeartbeats 2000000 in
theorem pres_content_succ (reg : Registry) (n : Nat)
    (ihPCD : Pres (parseClassDesc reg n))
    (ihPO : Pres (parseObject reg n))
    (ihPA : Pres (parseArray reg n))
    (ihPC : Pres (parseClass reg n))
    (ihPE : Pres (parseEnum reg n)) :
    ∀ allowed, Pres (content reg (n + 1) allowed) := by
  intro allowed st a st' h
  rw [content_succ] at h
  obtain ⟨⟨b, st1⟩, h1, h⟩ := bindOk h
  obtain ⟨e1, e2⟩ := posOnly_readUInt8 st _ _ h1
  dsimp only at h
  split at h
  · cases h
  · next hb =>
    split at h
    · cases h
    · have hlo : 0x70 ≤ b := by omega
      have hhi : b ≤ 0x7F := by omega
      interval_cases b
      · exact pres_chain (presOfPosOnly posOnly_parseNull) e1 e2 h
      · exact pres_chain (presOfPosOnly posOnly_parseReference) e1 e2 h
      · exact pres_chain ihPCD e1 e2 h
      · exact pres_chain ihPO e1 e2 h
      · exact pres_chain pres_parseString e1 e2 h
      · exact pres_chain ihPA e1 e2 h
      · exact pres_chain ihPC e1 e2 h
      · exact pres_chain (presOfPosOnly posOnly_parseBlockData) e1 e2 h
      · exact pres_chain (presOfPosOnly posOnly_parseEndBlockData) e1 e2 h
      · exact Except.noConfusion h
      · exact pres_chain (presOfPosOnly posOnly_parseBlockDataLong) e1 e2 h
      · exact Except.noConfusion h
      · exact pres_chain pres_parseLongString e1 e2 h
      · exact Except.noConfusion h
      · exact pres_chain ihPE e1 e2 h
      · exact Except.noConfusion h

theorem pres_annotations_succ (reg : Registry) (n : Nat)
    (ihC : ∀ allowed, Pres (content reg n allowed))
    (ihA : ∀ allowed, Pres (annotations reg n allowed)) :
    ∀ allowed, Pres (annotations reg (n + 1) allowed) := by
  intro allowed st a st' h
  rw [annotations_succ] at h
  obtain ⟨⟨v, st1⟩, h1, h⟩ := bindOk h
  have hc := ihC allowed st v st1 h1
  dsimp only at h
  split at h
  · cases h
    exact hc
  · obtain ⟨⟨rest, st2⟩, h2, h⟩ := bindOk h
    have ha := (ihA allowed) st1 rest st2 h2
    dsimp only at h
    cases h
    exact ⟨hc.1.trans ha.1, fun hwf => ha.2 (hc.2 hwf)⟩

theorem pres_classDesc_succ (reg : Registry) (n : Nat)
    (ihC : ∀ allowed, Pres (content reg n allowed)) :
    Pres (classDesc reg (n + 1)) := by
  intro st a st' h
  rw [classDesc_succ] at h
  exact ihC _ st a st' h

theorem pres_fieldDesc_succ (reg : Registry) (n : Nat)
    (ihC : ∀ allowed, Pres (content reg n allowed)) :
    Pres (fieldDesc reg (n + 1)) := by
  intro st a st' h
  rw [fieldDesc_succ] at h
  obtain ⟨⟨t, st1⟩, h1, h⟩ := bindOk h
  obtain ⟨e1, e2⟩ := posOnly_readUInt8 st _ _ h1
  dsimp only at h
  obtain ⟨⟨nm, st2⟩, h2, h⟩ := bindOk h
  obtain ⟨e3, e4⟩ := posOnly_utf st1 _ _ h2
  dsimp only at h
  split at h
  · obtain ⟨⟨cn, st3⟩, h3, h⟩ := bindOk h
    dsimp only at h
    cases h
    exact pres_chain (ihC none) (e3.trans e1) (e4.trans e2) h3
  · cases h
    exact ⟨Nat.le_of_eq (e3.trans e1).symm, wf_of_eq (e3.trans e1) (e4.trans e2)⟩

theorem pres_fieldDescs_succ (reg : Registry) (n : Nat)
    (ihFD : Pres (fieldDesc reg n))
    (ihFDs : ∀ k, Pres (fieldDescs reg n k)) :
    ∀ k, Pres (fieldDescs reg (n + 1) k) := by
  intro k st a st' h
  cases k with
  | zero =>
    rw [fieldDescs_succ_zero] at h
    cases h
    exact ⟨Nat.le_refl _, id⟩
  | succ k =>
    rw [fieldDescs_succ_succ] at h
    obtain ⟨⟨f, st1⟩, h1, h⟩ := bindOk h
    have hf := ihFD st f st1 h1
    dsimp only at h
    obtain ⟨⟨fs, st2⟩, h2, h⟩ := bindOk h
    have hfs := ihFDs k st1 fs st2 h2
    dsimp only at h
    cases h
    exact ⟨hf.1.trans hfs.1, fun hwf => hfs.2 (hf.2 hwf)⟩

theorem pres_parseClass_succ (reg : Registry) (n : Nat)
    (ihCD : Pres (classDesc reg n)) :
    Pres (parseClass reg (n + 1)) := by
  intro st a st' h
  rw [parseClass_succ] at h
  obtain ⟨⟨v, st1⟩, h1, h⟩ := bindOk h
  obtain ⟨l1, l2⟩ := ihCD st v st1 h1
  dsimp only at h
  cases h
  constructor
  · show st.nextHandle ≤ st1.nextHandle + 1
    exact l1.trans (Nat.le_succ _)
  · intro hwf
    exact wf_newHandle (l2 hwf) _

theorem pres_parseClassDesc_succ (reg : Registry) (n : Nat)
    (ihFDs : ∀ k, Pres (fieldDescs reg n k))
    (ihA : ∀ allowed, Pres (annotations reg n allowed))
    (ihCD : Pres (classDesc reg n)) :
    Pres (parseClassDesc reg (n + 1)) := by
  intro st a st' h
  rw [parseClassDesc_succ] at h
  obtain ⟨⟨nm, st1⟩, h1, h⟩ := bindOk h
  obtain ⟨e1, e2⟩ := posOnly_utf st _ _ h1
  dsimp only at h
  obtain ⟨⟨uid, st2⟩, h2, h⟩ := bindOk h
  obtain ⟨e3, e4⟩ := posOnly_readHex 8 st1 _ _ h2
  dsimp only at h
  obtain ⟨⟨flags, st3⟩, h3, h⟩ := bindOk h
  obtain ⟨e5, e6⟩ := posOnly_readUInt8 _ _ _ h3
  dsimp only at h
  obtain ⟨⟨count, st4⟩, h4, h⟩ := bindOk h
  obtain ⟨e7, e8⟩ := posOnly_readUInt16 st3 _ _ h4
  dsimp only at h
  obtain ⟨⟨fs, st5⟩, h5, h⟩ := bindOk h
  have p5 := ihFDs count st4 fs st5 h5
  dsimp only at h
  obtain ⟨⟨ans, st6⟩, h6, h⟩ := bindOk h
  have p6 := ihA none st5 ans st6 h6
  dsimp only at h
  obtain ⟨⟨supv, st7⟩, h7, h⟩ := bindOk h
  have p7 := ihCD st6 supv st7 h7
  dsimp only at h
  cases h
  have e5' : st3.nextHandle = st2.nextHandle + 1 := e5
  constructor
  · show st.nextHandle ≤ st7.nextHandle
    omega
  · intro hwf
    have wf2 : WF st2 := wf_of_eq e3 e4 (wf_of_eq e1 e2 hwf)
    have wf3 : WF st3 := wf_of_eq e5 e6 (wf_newHandle wf2 _)
    have wf7 : WF st7 := p7.2 (p6.2 (p5.2 (wf_of_eq e7 e8 wf3)))
    exact wf_assignHandle wf7 st2.nextHandle _ wf2.1 (by omega)

theorem pres_parseObject_succ (reg : Registry) (n : Nat)
    (ihCD : Pres (classDesc reg n))
    (ihRCD : ∀ cv o, Pres (recursiveClassData reg n cv o)) :
    Pres (parseObject reg (n + 1)) := by
  intro st a st' h
  rw [parseObject_succ] at h
  obtain ⟨⟨cv, st1⟩, h1, h⟩ := bindOk h
  have p1 := ihCD st cv st1 h1
  dsimp only at h
  cases cv <;> try exact Except.noConfusion h
  next c =>
  obtain ⟨⟨o, st2⟩, h2, h⟩ := bindOk h
  have p2 := ihRCD (.cls c) (ObjectDesc.mk c [] []) _ o st2 h2
  dsimp only at h
  cases h
  have e1 : (newHandle st1 (.obj (ObjectDesc.mk c [] []))).nextHandle
      = st1.nextHandle + 1 := rfl
  constructor
  · show st.nextHandle ≤ st2.nextHandle
    have := p1.1
    have := p2.1
    omega
  · intro hwf
    have wf1 : WF st1 := p1.2 hwf
    have wf2 : WF st2 := p2.2 (wf_newHandle wf1 _)
    have := p2.1
    exact wf_assignHandle wf2 st1.nextHandle _ wf1.1 (by omega)

theorem pres_recursiveClassData_succ (reg : Registry) (n : Nat)
    (ihRCD : ∀ cv o, Pres (recursiveClassData reg n cv o))
    (ihCDa : ∀ c, Pres (classdata reg n c)) :
    ∀ cv o, Pres (recursiveClassData reg (n + 1) cv o) := by
  intro cv o st a st' h
  rw [recursiveClassData_succ] at h
  cases cv <;> try exact Except.noConfusion h
  next c =>
  dsimp only at h
  split at h
  · obtain ⟨⟨o1, st1⟩, h1, h⟩ := bindOk h
    have p1 := ihRCD c.sup o st o1 st1 h1
    dsimp only at h
    obtain ⟨⟨g, st2⟩, h2, h⟩ := bindOk h
    have p2 := ihCDa c st1 g st2 h2
    dsimp only at h
    split at h
    · cases h
      exact ⟨p1.1.trans p2.1, fun hwf => p2.2 (p1.2 hwf)⟩
    · cases h
  · obtain ⟨⟨o1, st1⟩, h1, h⟩ := bindOk h
    cases h1
    dsimp only at h
    obtain ⟨⟨g, st2⟩, h2, h⟩ := bindOk h
    have p2 := ihCDa c st g st2 h2
    dsimp only at h
    split at h
    · cases h
      exact p2
    · cases h

theorem pres_classdata_succ (reg : Registry) (n : Nat)
    (ihV : ∀ fs acc, Pres (values reg n fs acc))
    (ihA : ∀ allowed, Pres (annotations reg n allowed)) :
    ∀ c, Pres (classdata reg (n + 1) c) := by
  intro c st a st' h
  rw [classdata_succ] at h
  dsimp only at h
  split at h
  · exact ihV c.fields [] st a st' h
  · obtain ⟨⟨res, st1⟩, h1, h⟩ := bindOk h
    have p1 := ihV c.fields [] st res st1 h1
    dsimp only at h
    obtain ⟨⟨data, st2⟩, h2, h⟩ := bindOk h
    have p2 := ihA none st1 data st2 h2
    dsimp only at h
    split at h <;> cases h <;>
      exact ⟨p1.1.trans p2.1, fun hwf => p2.2 (p1.2 hwf)⟩
  · cases h
  · obtain ⟨⟨anns, st1⟩, h1, h⟩ := bindOk h
    have p1 := ihA none st anns st1 h1
    dsimp only at h
    cases h
    exact p1
  · cases h

theorem pres_values_succ (reg : Registry) (n : Nat)
    (ihRP : ∀ t, Pres (readPrim reg n t))
    (ihV : ∀ fs acc, Pres (values reg n fs acc)) :
    ∀ fs acc, Pres (values reg (n + 1) fs acc) := by
  intro fs acc st a st' h
  cases fs with
  | nil =>
    rw [values_succ_nil] at h
    cases h
    exact ⟨Nat.le_refl _, id⟩
  | cons f rest =>
    rw [values_succ_cons] at h
    obtain ⟨⟨v, st1⟩, h1, h⟩ := bindOk h
    have p1 := ihRP (some f.type) st v st1 h1
    dsimp only at h
    have p2 := ihV rest (aset acc f.name v) st1 a st' h
    exact ⟨p1.1.trans p2.1, fun hwf => p2.2 (p1.2 hwf)⟩

theorem pres_readPrim_succ (reg : Registry) (n : Nat)
    (ihC : ∀ allowed, Pres (content reg n allowed)) :
    ∀ t, Pres (readPrim reg (n + 1) t) := by
  intro t st a st' h
  rw [readPrim_succ] at h
  cases t with
  | none => exact Except.noConfusion h
  | some tv =>
    dsimp only at h
    split at h
    · obtain ⟨⟨i, st1⟩, h1, h⟩ := bindOk h
      dsimp only at h; cases h
      exact presOfPosOnly posOnly_readInt8 st _ _ h1
    · split at h
      · obtain ⟨⟨u, st1⟩, h1, h⟩ := bindOk h
        dsimp only at h; cases h
        exact presOfPosOnly posOnly_readUInt16 st _ _ h1
      · split at h
        · obtain ⟨⟨bs, st1⟩, h1, h⟩ := bindOk h
          dsimp only at h; cases h
          exact presOfPosOnly (posOnly_chunk 8) st _ _ h1
        · split at h
          · obtain ⟨⟨bs, st1⟩, h1, h⟩ := bindOk h
            dsimp only at h; cases h
            exact presOfPosOnly (posOnly_chunk 4) st _ _ h1
          · split at h
            · obtain ⟨⟨i, st1⟩, h1, h⟩ := bindOk h
              dsimp only at h; cases h
              exact presOfPosOnly posOnly_readInt32 st _ _ h1
            · split at h
              · obtain ⟨⟨hi, st1⟩, h1, h⟩ := bindOk h
                obtain ⟨e1, e2⟩ := posOnly_readUInt32 st _ _ h1
                dsimp only at h
                obtain ⟨⟨lo, st2⟩, h2, h⟩ := bindOk h
                obtain ⟨e3, e4⟩ := posOnly_readUInt32 st1 _ _ h2
                dsimp only at h; cases h
                exact ⟨Nat.le_of_eq (e3.trans e1).symm,
                       wf_of_eq (e3.trans e1) (e4.trans e2)⟩
              · split at h
                · obtain ⟨⟨i, st1⟩, h1, h⟩ := bindOk h
                  dsimp only at h; cases h
                  exact presOfPosOnly posOnly_readInt16 st _ _ h1
                · split at h
                  · obtain ⟨⟨i, st1⟩, h1, h⟩ := bindOk h
                    dsimp only at h; cases h
                    exact presOfPosOnly posOnly_readInt8 st _ _ h1
                  · split at h
                    · exact ihC none st a st' h
                    · split at h
                      · exact ihC none st a st' h
                      · exact Except.noConfusion h

theorem pres_parseArray_succ (reg : Registry) (n : Nat)
    (ihCD : Pres (classDesc reg n))
    (ihRE : ∀ k t, Pres (readElems reg n k t)) :
    Pres (parseArray reg (n + 1)) := by
  intro st a st' h
  rw [parseArray_succ] at h
  obtain ⟨⟨cv, st1⟩, h1, h⟩ := bindOk h
  have p1 := ihCD st cv st1 h1
  dsimp only at h
  cases cv <;> try exact Except.noConfusion h
  next c =>
  obtain ⟨⟨len, st2⟩, h2, h⟩ := bindOk h
  obtain ⟨e1, e2⟩ := posOnly_readInt32 _ _ _ h2
  have e1' : st2.nextHandle = st1.nextHandle + 1 := e1
  dsimp only at h
  by_cases hpk : primHandlerOk ((ClassDesc.name c).get? 1) = true
  · rw [if_pos hpk] at h
    by_cases hlen : len < 0
    · rw [if_pos hlen] at h
      exact Except.noConfusion h
    · rw [if_neg hlen] at h
      obtain ⟨⟨elems, st3⟩, h3, h⟩ := bindOk h
      have p3 := ihRE len.toNat (c.name.get? 1) st2 elems st3 h3
      dsimp only at h
      cases h
      constructor
      · show st.nextHandle ≤ st3.nextHandle
        have := p1.1
        have := p3.1
        omega
      · intro hwf
        have wf1 : WF st1 := p1.2 hwf
        have wf3 : WF st3 :=
          p3.2 (wf_of_eq e1 e2 (wf_newHandle wf1 _))
        have := p3.1
        exact wf_assignHandle wf3 st1.nextHandle _ wf1.1 (by omega)
  · rw [if_neg hpk] at h
    exact Except.noConfusion h

theorem pres_readElems_succ (reg : Registry) (n : Nat)
    (ihRP : ∀ t, Pres (readPrim reg n t))
    (ihRE : ∀ k t, Pres (readElems reg n k t)) :
    ∀ k t, Pres (readElems reg (n + 1) k t) := by
  intro k t st a st' h
  cases k with
  | zero =>
    rw [readElems_succ_zero] at h
    cases h
    exact ⟨Nat.le_refl _, id⟩
  | succ k =>
    rw [readElems_succ_succ] at h
    obtain ⟨⟨v, st1⟩, h1, h⟩ := bindOk h
    have p1 := ihRP t st v st1 h1
    dsimp only at h
    obtain ⟨⟨vs, st2⟩, h2, h⟩ := bindOk h
    have p2 := ihRE k t st1 vs st2 h2
    dsimp only at h
    cases h
    exact ⟨p1.1.trans p2.1, fun hwf => p2.2 (p1.2 hwf)⟩

theorem pres_parseEnum_succ (reg : Registry) (n : Nat)
    (ihCD : Pres (classDesc reg n))
    (ihC : ∀ allowed, Pres (content reg n allowed)) :
    Pres (parseEnum reg (n + 1)) := by
  intro st a st' h
  rw [parseEnum_succ] at h
  obtain ⟨⟨cv, st1⟩, h1, h⟩ := bindOk h
  have p1 := ihCD st cv st1 h1
  dsimp only at h
  obtain ⟨⟨constant, st2⟩, h2, h⟩ := bindOk h
  have p2 := ihC none _ constant st2 h2
  dsimp only at h
  cases h
  have e1 : (newDeferredHandle st1).nextHandle = st1.nextHandle + 1 := rfl
  constructor
  · show st.nextHandle ≤ st2.nextHandle
    have := p1.1
    have := p2.1
    omega
  · intro hwf
    have wf1 : WF st1 := p1.2 hwf
    have wf2 : WF st2 := p2.2 (wf_newDeferredHandle wf1)
    have := p2.1
    exact wf_assignHandle wf2 st1.nextHandle _ wf1.1 (by omega)

theorem pres_contentsLoop_succ (reg : Registry) (n : Nat)
    (ihC : ∀ allowed, Pres (content reg n allowed))
    (ihL : Pres (contentsLoop reg n)) :
    Pres (contentsLoop reg (n + 1)) := by
  intro st a st' h
  rw [contentsLoop_succ] at h
  split at h
  · obtain ⟨⟨v, st1⟩, h1, h⟩ := bindOk h
    have p1 := ihC none st v st1 h1
    dsimp only at h
    obtain ⟨⟨rest, st2⟩, h2, h⟩ := bindOk h
    have p2 := ihL st1 rest st2 h2
    dsimp only at h
    cases h
    exact ⟨p1.1.trans p2.1, fun hwf => p2.2 (p1.2 hwf)⟩
  · cases h
    exact ⟨Nat.le_refl _, id⟩

/-- Handle-table discipline for every fuel-indexed parser at once, by
induction on the fuel. -/
theorem presAll (reg : Registry) : ∀ n : Nat,
    (∀ allowed, Pres (content reg n allowed)) ∧
    (∀ allowed, Pres (annotations reg n allowed)) ∧
    Pres (classDesc reg n) ∧
    Pres (parseClassDesc reg n) ∧
    (∀ k, Pres (fieldDescs reg n k)) ∧
    Pres (fieldDesc reg n) ∧
    Pres (parseClass reg n) ∧
    Pres (parseObject reg n) ∧
    (∀ cv o, Pres (recursiveClassData reg n cv o)) ∧
    (∀ c, Pres (classdata reg n c)) ∧
    (∀ fs acc, Pres (values reg n fs acc)) ∧
    (∀ t, Pres (readPrim reg n t)) ∧
    Pres (parseArray reg n) ∧
    (∀ k t, Pres (readElems reg n k t)) ∧
    Pres (parseEnum reg n) ∧
    Pres (contentsLoop reg n) := by
  intro n
  induction n with
  | zero =>
    refine ⟨fun _ st a st' h => Except.noConfusion h,
            fun _ st a st' h => Except.noConfusion h,
            fun st a st' h => Except.noConfusion h,
            fun st a st' h => Except.noConfusion h,
            fun _ st a st' h => Except.noConfusion h,
            fun st a st' h => Except.noConfusion h,
            fun st a st' h => Except.noConfusion h,
            fun st a st' h => Except.noConfusion h,
            fun _ _ st a st' h => Except.noConfusion h,
            fun _ st a st' h => Except.noConfusion h,
            fun _ _ st a st' h => Except.noConfusion h,
            fun _ st a st' h => Except.noConfusion h,
            fun st a st' h => Except.noConfusion h,
            fun _ _ st a st' h => Except.noConfusion h,
            fun st a st' h => Except.noConfusion h,
            fun st a st' h => Except.noConfusion h⟩
  | succ n ih =>
    obtain ⟨ihC, ihA, ihCD, ihPCD, ihFDs, ihFD, ihPC, ihPO, ihRCD, ihCDa,
            ihV, ihRP, ihPA, ihRE, ihPE, ihL⟩ := ih
    refine ⟨pres_content_succ reg n ihPCD ihPO ihPA ihPC ihPE,
            pres_annotations_succ reg n ihC ihA,
            pres_classDesc_succ reg n ihC,
            pres_parseClassDesc_succ reg n ihFDs ihA ihCD,
            pres_fieldDescs_succ reg n ihFD ihFDs,
            pres_fieldDesc_succ reg n ihC,
            pres_parseClass_succ reg n ihCD,
            pres_parseObject_succ reg n ihCD ihRCD,
            pres_recursiveClassData_succ reg n ihRCD ihCDa,
            pres_classdata_succ reg n ihV ihA,
            pres_values_succ reg n ihRP ihV,
            pres_readPrim_succ reg n ihC,
            pres_parseArray_succ reg n ihCD ihRE,
            pres_readElems_succ reg n ihRP ihRE,
            pres_parseEnum_succ reg n ihCD ihC,
            pres_contentsLoop_succ reg n ihC ihL⟩

/-- The initial state is well-formed: nothing allocated yet. -/
theorem wf_initState (buf : List Nat) : WF (initState buf) := by
  constructor
  · exact Nat.le_refl _
  · intro i
    constructor
    · intro hh; cases hh
    · rintro ⟨h1, h2⟩
      exact absurd h2 (by show ¬ i < 0x7E0000; omega)

/-- A whole successful parse leaves a well-formed handle table. -/
theorem parseStream_wf (reg : Registry) (fuel : Nat) (buf : List Nat)
    (l : List JValue) (st' : PState)
    (h : parseStream reg fuel buf = .ok (l, st')) : WF st' := by
  unfold parseStream at h
  obtain ⟨⟨u1, st1⟩, h1, h⟩ := bindOk h
  obtain ⟨⟨m, stm⟩, hm, hmm⟩ := bindOk h1
  obtain ⟨em1, em2⟩ := posOnly_readUInt16 _ _ _ hm
  dsimp only at hmm
  have hst1 : st1 = stm := by
    split at hmm
    · cases hmm; rfl
    · cases hmm
  dsimp only at h
  obtain ⟨⟨u2, st2⟩, h2, h⟩ := bindOk h
  obtain ⟨⟨v, stv⟩, hv, hvv⟩ := bindOk h2
  obtain ⟨ev1, ev2⟩ := posOnly_readUInt16 _ _ _ hv
  dsimp only at hvv
  have hst2 : st2 = stv := by
    split at hvv
    · cases hvv; rfl
    · cases hvv
  dsimp only at h
  have wfv : WF st2 := by
    subst hst2
    exact wf_of_eq ev1 ev2 (by subst hst1; exact wf_of_eq em1 em2 (wf_initState buf))
  exact ((presAll reg fuel).2.2.2.2.2.2.2.2.2.2.2.2.2.2.2 st2 l st' h).2 wfv

theorem chainOf_eq (c : ClassDesc) :
    chainOf c = (match c.sup with
                 | .cls s => chainOf s
                 | _ => []) ++ [c] := by
  cases c with
  | mk n u f e fs a sup => cases sup <;> rfl

theorem chainOf_ne_nil (c : ClassDesc) : chainOf c ≠ [] := by
  rw [chainOf_eq]
  intro hc
  cases List.append_eq_nil.mp hc with
  | intro h1 h2 => cases h2

theorem lastVal_cons (g : FMap) (rest : List FMap) (k : List Nat) :
    lastVal (g :: rest) k = oor (lastVal rest k) (alookup g k) := by
  show rest.foldl _ (oor (alookup g k) none) = _
  rw [lastVal_foldl_init, oor_none_right]

/-- The flattened value of a name is the value in the most-derived (searched
first from the back) group containing it. -/
theorem lastVal_eq_reverse_find (gs : List FMap) (k : List Nat) :
    lastVal gs k =
      (gs.reverse.find? fun g => (alookup g k).isSome).bind fun g => alookup g k := by
  induction gs using List.reverseRecOn with
  | nil => rfl
  | append_singleton gs g ih =>
    rw [lastVal_append, lastVal_single, List.reverse_append]
    show oor _ _ = ((g :: gs.reverse).find? _).bind _
    cases hg : alookup g k with
    | some v =>
      rw [List.find?_cons_of_pos _ (by rw [hg]; rfl)]
      simp [hg, oor]
    | none =>
      rw [List.find?_cons_of_neg _ (by rw [hg]; simp)]
      rw [oor_none, ih]

theorem lastVal_none_of_filter_nil (gs : List FMap) (k : List Nat)
    (h : gs.filter (fun g => (alookup g k).isSome) = []) : lastVal gs k = none := by
  induction gs with
  | nil => rfl
  | cons g rest ih =>
    rw [List.filter_cons] at h
    split at h
    · cases h
    · next hneg =>
      rw [lastVal_cons, ih h]
      cases hg : alookup g k with
      | some v => rw [hg] at hneg; simp at hneg
      | none => rfl

/-- When exactly one group contains the name, the flattened value is that
group's value. -/
theorem lastVal_filter_singleton (gs : List FMap) (k : List Nat) (g : FMap)
    (h : gs.filter (fun g2 => (alookup g2 k).isSome) = [g]) :
    lastVal gs k = alookup g k := by
  induction gs with
  | nil => cases h
  | cons gh rest ih =>
    rw [List.filter_cons] at h
    rw [lastVal_cons]
    split at h
    · next hpos =>
      have hg : gh = g := by
        have := List.head_eq_of_cons_eq h
        exact this
      have hrest : rest.filter (fun g2 => (alookup g2 k).isSome) = [] :=
        List.tail_eq_of_cons_eq h
      rw [lastVal_none_of_filter_nil rest k hrest, hg, oor_none]
    · next hneg =>
      rw [ih h]
      have : (alookup g k).isSome := by
        have hmem : g ∈ List.filter (fun g2 => (alookup g2 k).isSome) rest := by
          rw [h]; exact List.mem_singleton_self g
        exact (List.mem_filter.mp hmem).2
      cases hv : alookup g k with
      | some v => rfl
      | none => rw [hv] at this; simp at this

theorem alookup_foldl_aset_isSome {β : Type} (pairs : List (List Nat × β))
    (k : List Nat) :
    ∀ init : List (List Nat × β),
      (k ∈ pairs.map Prod.fst ∨ (alookup init k).isSome) →
      (alookup (pairs.foldl (fun e p => aset e p.1 p.2) init) k).isSome := by
  induction pairs with
  | nil =>
    intro init h
    cases h with
    | inl hl => cases hl
    | inr hr => exact hr
  | cons p rest ih =>
    intro init h
    show (alookup (rest.foldl _ (aset init p.1 p.2)) k).isSome
    apply ih
    by_cases hk : k = p.1
    · right
      subst hk
      rw [alookup_aset_self]
      rfl
    · cases h with
      | inl hl =>
        rw [List.map_cons] at hl
        cases hl with
        | head => exact absurd rfl hk
        | tail _ hmem => left; exact hmem
      | inr hr =>
        right
        rw [alookup_aset_ne _ _ _ _ hk]
        exact hr

/-- What `recursiveClassData` builds: one data group per chain entry
(root first), the `extends` record keyed by class name, and the flattened
view in which the most-derived group containing a name wins. -/
theorem recursiveClassData_spec (reg : Registry) :
    ∀ (fuel : Nat) (cv : JValue) (o0 : ObjectDesc) (st : PState) (o : ObjectDesc)
      (st' : PState),
      recursiveClassData reg fuel cv o0 st = .ok (o, st') →
      ∃ (c : ClassDesc) (gs : List FMap), cv = .cls c ∧
        gs.length = (chainOf c).length ∧
        o.cls = o0.cls ∧
        o.ext = (((chainOf c).map ClassDesc.name).zip gs).foldl
                  (fun e p => aset e p.1 p.2) o0.ext ∧
        (∀ k, alookup o.fields k = oor (lastVal gs k) (alookup o0.fields k)) := by
  intro fuel
  induction fuel with
  | zero => intro cv o0 st o st' h; exact Except.noConfusion h
  | succ n ih =>
    intro cv o0 st o st' h
    rw [recursiveClassData_succ] at h
    cases cv <;> try exact Except.noConfusion h
    next c =>
    dsimp only at h
    split at h
    · next htr =>
      obtain ⟨⟨o1, st1⟩, h1, h⟩ := bindOk h
      obtain ⟨c', gs', hcv', hlen', hcls', hext', hfields'⟩ := ih c.sup o0 st o1 st1 h1
      dsimp only at h
      obtain ⟨⟨g, st2⟩, h2, h⟩ := bindOk h
      dsimp only at h
      split at h
      · next o3 hf =>
        cases h
        obtain ⟨hc3, he3, hf3⟩ := flattenInto_ok g _ _ hf
        have hc3' : o.cls = o1.cls := hc3
        have he3' : o.ext = aset o1.ext c.name g := he3
        have hf3' : ∀ k, alookup o.fields k =
            oor (alookup g k) (alookup o1.fields k) := hf3
        have hpre : chainOf c = chainOf c' ++ [c] := by
          rw [chainOf_eq, hcv']
        refine ⟨c, gs' ++ [g], rfl, ?_, ?_, ?_, ?_⟩
        · rw [hpre]
          simp [hlen']
        · exact hc3'.trans hcls'
        · have hzip : ((chainOf c).map ClassDesc.name).zip (gs' ++ [g]) =
              ((chainOf c').map ClassDesc.name).zip gs' ++ [(c.name, g)] := by
            rw [hpre, List.map_append]
            exact List.zip_append (by rw [List.length_map, hlen'])
          rw [hzip, List.foldl_append]
          show o.ext = aset _ c.name g
          rw [he3', hext']
        · intro k
          rw [hf3' k, hfields' k, lastVal_append, lastVal_single]
          rw [← oor_assoc]
      · cases h
    · next htr =>
      obtain ⟨⟨o1, st1⟩, h1, h⟩ := bindOk h
      cases h1
      dsimp only at h
      obtain ⟨⟨g, st2⟩, h2, h⟩ := bindOk h
      dsimp only at h
      split at h
      · next o3 hf =>
        cases h
        obtain ⟨hc3, he3, hf3⟩ := flattenInto_ok g _ _ hf
        have hc3' : o.cls = o0.cls := hc3
        have he3' : o.ext = aset o0.ext c.name g := he3
        have hf3' : ∀ k, alookup o.fields k =
            oor (alookup g k) (alookup o0.fields k) := hf3
        have hpre : chainOf c = [] ++ [c] := by
          rw [chainOf_eq]
          congr 1
          cases hs : c.sup <;> try rfl
          next s =>
            exfalso
            apply htr
            rw [hs]
            rfl
        refine ⟨c, [g], rfl, ?_, hc3', ?_, ?_⟩
        · rw [hpre]; rfl
        · have hzip : ((chainOf c).map ClassDesc.name).zip [g] = [(c.name, g)] := by
            rw [hpre]
            rfl
          rw [hzip]
          show o.ext = aset o0.ext c.name g
          exact he3'
        · intro k
          rw [hf3' k, lastVal_single]
      · cases h

theorem readElems_length (reg : Registry) :
    ∀ (n k : Nat) (t : Option Nat) (st : PState) (vs : List JValue) (st' : PState),
      readElems reg n k t st = .ok (vs, st') → vs.length = k := by
  intro n
  induction n with
  | zero => intro k t st vs st' h; exact Except.noConfusion h
  | succ n ih =>
    intro k t st vs st' h
    cases k with
    | zero =>
      rw [readElems_succ_zero] at h
      cases h
      rfl
    | succ k =>
      rw [readElems_succ_succ] at h
      obtain ⟨⟨v, st1⟩, h1, h⟩ := bindOk h
      dsimp only at h
      obtain ⟨⟨vs2, st2⟩, h2, h⟩ := bindOk h
      have hl := ih k t st1 vs2 st2 h2
      dsimp only at h
      cases h
      rw [List.length_cons, hl]

/-- Successful array parses decompose into descriptor, handle, length,
handler check, and elements; shared by several claim theorems. -/
theorem parseArray_ok_decomp (reg : Registry) (n : Nat) (st : PState)
    (v : JValue) (st' : PState)
    (h : parseArray reg (n + 1) st = .ok (v, st')) :
    ∃ c st1 len st2 elems st3,
      classDesc reg n st = .ok (.cls c, st1) ∧
      readInt32 (newHandle st1 (.arr (ArrayDesc.mk c []))) = .ok (len, st2) ∧
      primHandlerOk (c.name.get? 1) = true ∧
      0 ≤ len ∧
      readElems reg n len.toNat (c.name.get? 1) st2 = .ok (elems, st3) ∧
      elems.length = len.toNat ∧
      v = .arr (ArrayDesc.mk c elems) ∧
      st' = assignHandle st3 st1.nextHandle (.arr (ArrayDesc.mk c elems)) := by
  rw [parseArray_succ] at h
  obtain ⟨⟨cv, st1⟩, h1, h⟩ := bindOk h
  dsimp only at h
  cases cv <;> try exact Except.noConfusion h
  next c =>
  obtain ⟨⟨len, st2⟩, h2, h⟩ := bindOk h
  dsimp only at h
  by_cases hpk : primHandlerOk ((ClassDesc.name c).get? 1) = true
  · rw [if_pos hpk] at h
    by_cases hlen : len < 0
    · rw [if_pos hlen] at h
      exact Except.noConfusion h
    · rw [if_neg hlen] at h
      obtain ⟨⟨elems, st3⟩, h3, h⟩ := bindOk h
      dsimp only at h
      cases h
      exact ⟨c, st1, len, st2, elems, st3, h1, h2, hpk, Int.not_lt.mp hlen, h3,
             readElems_length reg n len.toNat _ st2 elems st3 h3, rfl, rfl⟩
  · rw [if_neg hpk] at h
    exact Except.noConfusion h

theorem isEndBlock_eq_false {a : JValue} (h : isEndBlock a = false) :
    a ≠ JValue.endBlock := by
  intro contra
  subst contra
  cases h

/-- C4 counterexample: a top-level EndBlockData item IS exposed as the
sentinel in the top-level content sequence ([0xAC ED 00 05 78] parses
successfully to exactly that). -/
theorem c4_counterexample :
    Except.map Prod.fst (parseStream emptyReg 8 c4buf) = .ok [JValue.endBlock] := rfl

/-- C4 (amended): annotation readers consume the sentinel as a terminator
and never include it in the returned sequence; only the top-level loop can
expose it. -/
theorem c4_sentinel_confined (reg : Registry) :
    ∀ (n : Nat) (allowed : Option (List String)) (st : PState) (l : List JValue)
      (st' : PState),
      annotations reg n allowed st = .ok (l, st') → JValue.endBlock ∉ l := by
  intro n
  induction n with
  | zero => intro allowed st l st' h; exact Except.noConfusion h
  | succ n ih =>
    intro allowed st l st' h
    rw [annotations_succ] at h
    obtain ⟨⟨v, st1⟩, h1, h⟩ := bindOk h
    dsimp only at h
    split at h
    · cases h
      exact List.not_mem_nil _
    · next hend =>
      obtain ⟨⟨rest, st2⟩, h2, h⟩ := bindOk h
      have hrest := ih allowed st1 rest st2 h2
      dsimp only at h
      cases h
      intro hmem
      cases hmem with
      | head =>
        exact isEndBlock_eq_false (Bool.not_eq_true _ ▸ hend) rfl
      | tail _ hmem2 => exact hrest hmem2

/-- C4 witness: a concrete annotation block `Null, EndBlockData` returns
`[null]` without the sentinel. -/
theorem c4_sentinel_confined_witness :
    (∃ st', annotations emptyReg 4 none c4wSt = .ok ([JValue.null], st')) ∧
      JValue.endBlock ∉ [JValue.null] := by
  obtain ⟨st', h⟩ : ∃ st', annotations emptyReg 4 none c4wSt = .ok ([JValue.null], st') :=
    ⟨_, rfl⟩
  exact ⟨⟨st', h⟩, c4_sentinel_confined emptyReg 4 none c4wSt [JValue.null] st' h⟩

/-- C5 counterexample: the boundary byte 0x7F is NOT rejected with the
out-of-range type-code error; it passes the range check (`tc > names.length`
with `names.length = 15`) and fails with the missing-handler error
("Don't know how to handle undefined"). -/
theorem c5_counterexample :
    parseStream emptyReg 8 c5buf = .error (.noHandler none) ∧
      PErr.noHandler none ≠ PErr.unknownType 0x7F := ⟨rfl, by decide⟩

/-- C5 (amended): a content type-code byte below 0x70 or above 0x7F fails
with UnknownTypeCode reporting the byte; the boundary byte 0x7F instead
passes the range check and fails with the missing-handler error (or the
disallowed-content error at a restricted position). -/
theorem c5_type_code_errors (reg : Registry) (n : Nat)
    (allowed : Option (List String)) (st : PState) (b : Nat) (st' : PState)
    (h : readUInt8 st = .ok (b, st')) :
    (b < 0x70 ∨ 0x7F < b → content reg (n + 1) allowed st = .error (.unknownType b)) ∧
    (b = 0x7F → content reg (n + 1) allowed st =
      match allowed with
      | some _ => .error (.notAllowed none)
      | none => .error (.noHandler none)) := by
  constructor
  · intro hb
    rw [content_succ, h]
    show (if b < 0x70 ∨ 0x7F < b then _ else _) = _
    rw [if_pos hb]
  · intro hb
    subst hb
    rw [content_succ, h]
    cases allowed <;> rfl

/-- C5 witness: byte 0x10 fails with UnknownTypeCode 0x10; byte 0x7F fails
with the missing-handler error. -/
theorem c5_type_code_errors_witness :
    content emptyReg 5 none c5wSt1 = .error (.unknownType 0x10) ∧
    content emptyReg 5 none c5wSt2 = .error (.noHandler none) :=
  ⟨(c5_type_code_errors emptyReg 4 none c5wSt1 0x10
      { buf := [0x10], pos := 1, nextHandle := 0x7E0000, handles := fun _ => none }
      rfl).1 (Or.inl (by decide)),
   (c5_type_code_errors emptyReg 4 none c5wSt2 0x7F
      { buf := [0x7F], pos := 1, nextHandle := 0x7E0000, handles := fun _ => none }
      rfl).2 rfl⟩

/-- C6 (code bug): a truncated BlockData body is NOT detected; the parse
of [0xAC ED 00 05 77 05] succeeds with an empty clamped slice and the final
cursor at 11, past the 6-byte buffer, so the consumed positions do not
cover exactly the buffer. -/
theorem c6_blockdata_cursor_overrun :
    (match parseStream emptyReg 8 c6buf with
     | .ok (l, s) => l = [.bytes []] ∧ s.pos = 11 ∧ s.buf.length = 6
     | .error _ => False) := ⟨rfl, rfl, rfl⟩

/-- C7 (code bug): `parseBlockData`/`parseBlockDataLong` advance the cursor
without the `step` bounds check: a declared length of 5 with 0 bytes
remaining returns an empty clamped slice and no PrematureEndOfInput. -/
theorem c7_blockdata_truncated_no_error :
    parseBlockDataLong c7St =
      .ok (.bytes [], { buf := [0x00, 0x00, 0x00, 0x05], pos := 9,
                        nextHandle := 0x7E0000, handles := c7St.handles }) ∧
    (match parseStream emptyReg 8 c7buf with
     | .ok (l, s) => l = [.bytes []] ∧ s.pos = 14 ∧ s.buf.length = 9
     | .error _ => False) := ⟨rfl, rfl, rfl, rfl⟩

/-- C8 counterexample: a Reference to an unallocated slot does NOT fail;
the parse succeeds and yields JavaScript `undefined`. -/
theorem c8_counterexample :
    Except.map Prod.fst (parseStream emptyReg 8 c8buf) = .ok [JValue.undef] := rfl

/-- C8 (amended): `parseReference` returns `this.handles[index]` without
any validity check: an allocated slot yields the stored value, a reserved
slot the null placeholder, anything else JavaScript `undefined`; no
InvalidHandle error exists. -/
theorem c8_reference_semantics (st : PState) (i : Int) (st' : PState)
    (h : readInt32 st = .ok (i, st')) :
    parseReference st = .ok (handleGet st' i, st') ∧
    (∀ v, 0 ≤ i → st'.handles i.toNat = some (some v) → handleGet st' i = v) ∧
    (0 ≤ i → st'.handles i.toNat = some none → handleGet st' i = .null) ∧
    (0 ≤ i → st'.handles i.toNat = none → handleGet st' i = .undef) ∧
    (i < 0 → handleGet st' i = .undef) := by
  refine ⟨?_, ?_, ?_, ?_, ?_⟩
  · unfold parseReference
    rw [h]
    rfl
  · intro v h0 hv
    unfold handleGet
    rw [if_neg (Int.not_lt.mpr h0), hv]
  · intro h0 hv
    unfold handleGet
    rw [if_neg (Int.not_lt.mpr h0), hv]
  · intro h0 hv
    unfold handleGet
    rw [if_neg (Int.not_lt.mpr h0), hv]
  · intro hneg
    unfold handleGet
    rw [if_pos hneg]

/-- C8 witness: reading the handle value 0x7E0000 from an empty table
succeeds and returns `undefined`. -/
theorem c8_reference_semantics_witness :
    parseReference c8wSt = .ok (JValue.undef, c8wSt2) ∧
    handleGet c8wSt2 0x7E0000 = .undef :=
  ⟨(c8_reference_semantics c8wSt 0x7E0000 c8wSt2 rfl).1,
   (c8_reference_semantics c8wSt 0x7E0000 c8wSt2 rfl).2.2.2.1 (by decide) rfl⟩

set_option maxHeartbeats 2000000 in
/-- C9 counterexample: a successfully parsed ArrayDesc whose class name is
"XI" — the first character is 'X' (0x58), not '[' (0x5B) — because
`parseArray` never validates the descriptor name. -/
theorem c9_counterexample :
    parseStream emptyReg 10 c9buf =
      .ok ([.arr (ArrayDesc.mk c9cls [.int 5])], c9endSt) ∧
    c9cls.name.head? = some 0x58 ∧ (0x58 : Nat) ≠ 0x5B := by
  refine ⟨?_, rfl, by decide⟩
  have hc : content emptyReg 9 none c9vSt =
      .ok (.arr (ArrayDesc.mk c9cls [.int 5]), c9endSt) := rfl
  unfold parseStream
  rw [show magic (initState c9buf) = .ok ((), c9mSt) from rfl]
  try simp only [Bind.bind, Except.bind]
  try dsimp only
  rw [show version c9mSt = .ok ((), c9vSt) from rfl]
  try simp only [Bind.bind, Except.bind]
  try dsimp only
  rw [contentsLoop_succ]
  rw [if_pos (show c9vSt.pos < c9vSt.buf.length by decide)]
  rw [hc]
  try simp only [Bind.bind, Except.bind]
  try dsimp only
  rw [contentsLoop_succ]
  rw [if_neg (show ¬ c9endSt.pos < c9endSt.buf.length by decide)]

/-- C9 (amended): every successful `parseArray` decomposes into a class
descriptor, a handle, a non-negative i32 wire length, the handler selected
by the SECOND character of the descriptor name, and exactly `len` elements;
the first character of the name is not checked. -/
theorem c9_array_shape (reg : Registry) (n : Nat) (st : PState) (v : JValue)
    (st' : PState) (h : parseArray reg (n + 1) st = .ok (v, st')) :
    ∃ c st1 len st2 elems st3,
      classDesc reg n st = .ok (.cls c, st1) ∧
      readInt32 (newHandle st1 (.arr (ArrayDesc.mk c []))) = .ok (len, st2) ∧
      primHandlerOk (c.name.get? 1) = true ∧
      0 ≤ len ∧
      readElems reg n len.toNat (c.name.get? 1) st2 = .ok (elems, st3) ∧
      elems.length = len.toNat ∧
      v = .arr (ArrayDesc.mk c elems) ∧
      st' = assignHandle st3 st1.nextHandle (.arr (ArrayDesc.mk c elems)) :=
  parseArray_ok_decomp reg n st v st' h

set_option maxHeartbeats 1000000 in
/-- C9 witness: the decomposition at the concrete "XI" array stream. -/
theorem c9_array_shape_witness :
    ∃ v st', parseArray emptyReg 8 c9St = .ok (v, st') ∧
      ∃ c st1 len st2 elems st3,
        classDesc emptyReg 7 c9St = .ok (.cls c, st1) ∧
        readInt32 (newHandle st1 (.arr (ArrayDesc.mk c []))) = .ok (len, st2) ∧
        primHandlerOk (c.name.get? 1) = true ∧
        0 ≤ len ∧
        readElems emptyReg 7 len.toNat (c.name.get? 1) st2 = .ok (elems, st3) ∧
        elems.length = len.toNat ∧
        v = .arr (ArrayDesc.mk c elems) ∧
        st' = assignHandle st3 st1.nextHandle (.arr (ArrayDesc.mk c elems)) := by
  refine ⟨_, _, rfl, ?_⟩
  exact c9_array_shape emptyReg 7 c9St _ _ rfl

/-- C10: installing a negative wire length on the result array throws
(RangeError in the host), so decoding fails with that length; consequently
every successfully parsed array has a non-negative length matching its
element count. -/
theorem c10_negative_array_length (reg : Registry) (n : Nat) :
    (∀ st c st1 len st2,
      classDesc reg n st = .ok (.cls c, st1) →
      readInt32 (newHandle st1 (.arr (ArrayDesc.mk c []))) = .ok (len, st2) →
      primHandlerOk (c.name.get? 1) = true →
      len < 0 →
      parseArray reg (n + 1) st = .error (.invalidArrayLength len)) ∧
    (∀ st v st', parseArray reg (n + 1) st = .ok (v, st') →
      ∃ (c : ClassDesc) (len : Int) (elems : List JValue),
        0 ≤ len ∧ v = .arr (ArrayDesc.mk c elems) ∧
        elems.length = len.toNat) := by
  constructor
  · intro st c st1 len st2 hc hlen hpk hneg
    rw [parseArray_succ, hc]
    try simp only [Bind.bind, Except.bind]
    try dsimp only
    rw [hlen]
    try simp only [Bind.bind, Except.bind]
    try dsimp only
    rw [if_pos hpk, if_pos hneg]
  · intro st v st' h
    obtain ⟨c, st1, len, st2, elems, st3, _, _, _, hnn, _, hlen, hv, _⟩ :=
      parseArray_ok_decomp reg n st v st' h
    exact ⟨c, len, elems, hnn, hv, hlen⟩

set_option maxHeartbeats 1000000 in
/-- C10 witness: the concrete stream with wire length -1 fails with the
negative-length error. -/
theorem c10_negative_array_length_witness :
    classDesc emptyReg 8 c10St = .ok (.cls c9cls, c10aSt) ∧
    readInt32 (newHandle c10aSt (.arr (ArrayDesc.mk c9cls []))) = .ok (-1, c10bSt) ∧
    primHandlerOk (c9cls.name.get? 1) = true ∧
    ((-1 : Int) < 0) ∧
    parseArray emptyReg 9 c10St = .error (.invalidArrayLength (-1)) := by
  refine ⟨rfl, rfl, rfl, by decide, ?_⟩
  exact (c10_negative_array_length emptyReg 8).1 c10St c9cls c10aSt (-1) c10bSt rfl rfl
    rfl (by decide)

/-- A `content` position whose next byte is 0x73 dispatches to
`parseObject`. -/
theorem content_object (reg : Registry) (n : Nat) (st st1 : PState)
    (h : readUInt8 st = .ok (0x73, st1)) :
    content reg (n + 1) none st = parseObject reg n st1 := by
  rw [content_succ, h]
  rfl

set_option maxHeartbeats 1000000 in
/-- The class descriptor of the C3 stream evaluates to `c3cA` with the
forward reference already resolved (to `undefined`). -/
theorem c3_classDesc_eq :
    classDesc emptyReg 7 c3st5 = .ok (.cls c3cA, c3stA) := rfl

set_option maxHeartbeats 1000000 in
/-- The object of the C3 stream, from the state right after its 0x73 tag. -/
theorem c3_parseObject_eq :
    parseObject emptyReg 8 c3st5 = .ok (.obj c3obj, c3endSt) := by
  rw [parseObject_succ, c3_classDesc_eq]
  try simp only [Bind.bind, Except.bind]
  try dsimp only
  rfl

set_option maxHeartbeats 1000000 in
/-- The single content item of the C3 stream. -/
theorem c3_content_eq :
    content emptyReg 9 none c3vSt = .ok (.obj c3obj, c3endSt) := by
  rw [content_object emptyReg 8 c3vSt c3st5 rfl]
  exact c3_parseObject_eq

set_option maxHeartbeats 2000000 in
/-- C3 counterexample: the object's slot is written only AFTER one of its
internal components — its class descriptor — has been fully decoded: a
Reference to the object's own index 0x7E0001 from inside the descriptor's
annotation block resolves to `undefined` in the successful parse, while the
final table maps 0x7E0001 to the object.  Were the object written to the
table before its components were decoded, that reference would resolve to
the object. -/
theorem c3_counterexample :
    parseStream emptyReg 10 c3buf = .ok ([.obj c3obj], c3endSt) ∧
    c3cA.annots = [.undef] ∧
    handleGet c3endSt 0x7E0001 = .obj c3obj ∧
    c3endSt.nextHandle = 0x7E0002 := by
  refine ⟨?_, rfl, rfl, rfl⟩
  have hc : content emptyReg 9 none c3vSt = .ok (.obj c3obj, c3endSt) :=
    c3_content_eq
  unfold parseStream
  rw [show magic (initState c3buf) = .ok ((), c3mSt) from rfl]
  try simp only [Bind.bind, Except.bind]
  try dsimp only
  rw [show version c3mSt = .ok ((), c3vSt) from rfl]
  try simp only [Bind.bind, Except.bind]
  try dsimp only
  rw [contentsLoop_succ]
  rw [if_pos (show c3vSt.pos < c3vSt.buf.length by decide)]
  rw [hc]
  try simp only [Bind.bind, Except.bind]
  try dsimp only
  rw [contentsLoop_succ]
  rw [if_neg (show ¬ c3endSt.pos < c3endSt.buf.length by decide)]

/-- C3 (amended): handle indices are dense and monotone from the base
0x7E0000 (a successful parse leaves exactly the interval up to `nextHandle`
allocated); `newHandle` writes its value at allocation time and
`newDeferredHandle` reserves a null placeholder, each consuming exactly the
next index; `parseEnum` reserves its slot after the class descriptor and
before the constant is read, and assigns it afterwards.  Class descriptors,
objects and arrays receive their slot only after their leading component
(name and UID; the class descriptor) has been decoded — see the
counterexample for the claim's stronger reading. -/
theorem c3_handle_discipline :
    (∀ (reg : Registry) (fuel : Nat) (buf : List Nat) (l : List JValue)
       (st' : PState),
      parseStream reg fuel buf = .ok (l, st') → WF st') ∧
    (∀ (st : PState) (v : JValue),
      (newHandle st v).nextHandle = st.nextHandle + 1 ∧
      (newHandle st v).handles st.nextHandle = some (some v) ∧
      ∀ j, j ≠ st.nextHandle → (newHandle st v).handles j = st.handles j) ∧
    (∀ st : PState,
      (newDeferredHandle st).nextHandle = st.nextHandle + 1 ∧
      (newDeferredHandle st).handles st.nextHandle = some none ∧
      ∀ j, j ≠ st.nextHandle → (newDeferredHandle st).handles j = st.handles j) ∧
    (∀ (reg : Registry) (n : Nat) (st : PState) (v : JValue) (st' : PState),
      parseEnum reg (n + 1) st = .ok (v, st') →
      ∃ cv st1 constant st2,
        classDesc reg n st = .ok (cv, st1) ∧
        (newDeferredHandle st1).handles st1.nextHandle = some none ∧
        content reg n none (newDeferredHandle st1) = .ok (constant, st2) ∧
        v = .enumv constant cv ∧
        st' = assignHandle st2 st1.nextHandle v ∧
        st'.handles st1.nextHandle = some (some v)) := by
  refine ⟨parseStream_wf, ?_, ?_, ?_⟩
  · intro st v
    refine ⟨rfl, ?_, ?_⟩
    · show (if st.nextHandle = st.nextHandle then some (some v) else st.handles _) = _
      rw [if_pos rfl]
    · intro j hj
      show (if j = st.nextHandle then some (some v) else st.handles j) = _
      rw [if_neg hj]
  · intro st
    refine ⟨rfl, ?_, ?_⟩
    · show (if st.nextHandle = st.nextHandle then some none else st.handles _) = _
      rw [if_pos rfl]
    · intro j hj
      show (if j = st.nextHandle then some none else st.handles j) = _
      rw [if_neg hj]
  · intro reg n st v st' h
    rw [parseEnum_succ] at h
    obtain ⟨⟨cv, st1⟩, h1, h⟩ := bindOk h
    dsimp only at h
    obtain ⟨⟨constant, st2⟩, h2, h⟩ := bindOk h
    dsimp only at h
    cases h
    refine ⟨cv, st1, constant, st2, h1, ?_, h2, rfl, rfl, ?_⟩
    · show (if st1.nextHandle = st1.nextHandle then some none else _) = _
      rw [if_pos rfl]
    · show (if st1.nextHandle = st1.nextHandle then some (some _) else _) = _
      rw [if_pos rfl]

set_option maxHeartbeats 1000000 in
/-- C3 witness: the discipline at concrete inputs — the header-only parse
leaves a well-formed table; the allocators touch exactly the next index;
the enum stream's reserve/assign decomposition. -/
theorem c3_handle_discipline_witness :
    WF hdrEndSt ∧
    ((newHandle hdrEndSt JValue.null).nextHandle = 0x7E0001 ∧
     (newHandle hdrEndSt JValue.null).handles 0x7E0000 = some (some JValue.null) ∧
     (newHandle hdrEndSt JValue.null).handles 5 = none) ∧
    ((newDeferredHandle hdrEndSt).nextHandle = 0x7E0001 ∧
     (newDeferredHandle hdrEndSt).handles 0x7E0000 = some none) ∧
    (∃ v st', parseEnum emptyReg 8 enumPSt = .ok (v, st') ∧
      ∃ cv st1 constant st2,
        classDesc emptyReg 7 enumPSt = .ok (cv, st1) ∧
        (newDeferredHandle st1).handles st1.nextHandle = some none ∧
        content emptyReg 7 none (newDeferredHandle st1) = .ok (constant, st2) ∧
        v = .enumv constant cv ∧
        st' = assignHandle st2 st1.nextHandle v ∧
        st'.handles st1.nextHandle = some (some v)) := by
  refine ⟨?_, ⟨?_, ?_, ?_⟩, ⟨?_, ?_⟩, ?_⟩
  · exact c3_handle_discipline.1 emptyReg 4 streamHdr [] hdrEndSt rfl
  · exact (c3_handle_discipline.2.1 hdrEndSt JValue.null).1
  · exact (c3_handle_discipline.2.1 hdrEndSt JValue.null).2.1
  · exact (c3_handle_discipline.2.1 hdrEndSt JValue.null).2.2 5 (by decide)
  · exact (c3_handle_discipline.2.2.1 hdrEndSt).1
  · exact (c3_handle_discipline.2.2.1 hdrEndSt).2.1
  · refine ⟨_, _, rfl, ?_⟩
    exact c3_handle_discipline.2.2.2 emptyReg 7 enumPSt _ _ rfl

/-- C2: a successful `recursiveClassData` run on a fresh object yields one
data group per ancestor (root first); the `extends` record has an entry for
every class of the chain; the flattened view maps every present field name
to the value of the last group written — the most-derived group containing
the name — and in particular, a name contained in exactly one group gets
that group's value. -/
theorem c2_extends_and_flattening (reg : Registry) (fuel : Nat) (c : ClassDesc)
    (o0 : ObjectDesc) (st : PState) (o : ObjectDesc) (st2 : PState)
    (h : recursiveClassData reg fuel (.cls c) o0 st = .ok (o, st2))
    (hext0 : o0.ext = []) (hf0 : o0.fields = []) :
    ∃ gs : List FMap,
      gs.length = (chainOf c).length ∧
      o.ext = (((chainOf c).map ClassDesc.name).zip gs).foldl
                (fun e p => aset e p.1 p.2) [] ∧
      (∀ cc, cc ∈ chainOf c → (alookup o.ext cc.name).isSome) ∧
      (∀ k, alookup o.fields k =
        (gs.reverse.find? fun g => (alookup g k).isSome).bind
          fun g => alookup g k) ∧
      (∀ k g, gs.filter (fun g2 => (alookup g2 k).isSome) = [g] →
        alookup o.fields k = alookup g k) := by
  obtain ⟨c1, gs, hcv, hlen, hcls, hext, hfields⟩ :=
    recursiveClassData_spec reg fuel (.cls c) o0 st o st2 h
  have hcc : c = c1 := by injection hcv
  subst hcc
  refine ⟨gs, hlen, ?_, ?_, ?_, ?_⟩
  · rw [hext, hext0]
  · intro cc hmem
    rw [hext, hext0]
    apply alookup_foldl_aset_isSome
    left
    rw [List.map_fst_zip]
    · exact List.mem_map.mpr ⟨cc, hmem, rfl⟩
    · rw [List.length_map, hlen]
  · intro k
    rw [hfields k, hf0]
    show oor (lastVal gs k) (alookup ([] : FMap) k) = _
    rw [show alookup ([] : FMap) k = none from rfl, oor_none_right,
      lastVal_eq_reverse_find]
  · intro k g hg
    rw [hfields k, hf0]
    show oor (lastVal gs k) (alookup ([] : FMap) k) = _
    rw [show alookup ([] : FMap) k = none from rfl, oor_none_right]
    exact lastVal_filter_singleton gs k g hg

/-- C2 witness: a derived/base pair that both declare "foo"; the run
satisfies the decomposition at concrete inputs. -/
theorem c2_extends_and_flattening_witness :
    ∃ o st2, recursiveClassData emptyReg 8 (.cls c2cD) c2o0 c2St = .ok (o, st2) ∧
      ∃ gs : List FMap,
        gs.length = (chainOf c2cD).length ∧
        o.ext = (((chainOf c2cD).map ClassDesc.name).zip gs).foldl
                  (fun e p => aset e p.1 p.2) [] ∧
        (∀ cc, cc ∈ chainOf c2cD → (alookup o.ext cc.name).isSome) ∧
        (∀ k, alookup o.fields k =
          (gs.reverse.find? fun g => (alookup g k).isSome).bind
            fun g => alookup g k) ∧
        (∀ k g, gs.filter (fun g2 => (alookup g2 k).isSome) = [g] →
          alookup o.fields k = alookup g k) := by
  refine ⟨_, _, rfl, ?_⟩
  exact c2_extends_and_flattening emptyReg 8 c2cD c2o0 c2St _ _ rfl rfl rfl

/-- C1: per-class data is selected by the low nibble of the flags: 0x02
reads the declared fields' values (one primitive read per field, in field
order — the `values` equations); 0x03 reads the values, then an annotation
block stored under "@", and a registered post-processor for the
(name, serialVersionUID) pair replaces the group; 0x04 is a fatal error;
0x0C reads only an annotation block, yielding a map whose sole entry is "@"
(independent of the declared fields); every other nibble is a fatal
error. -/
theorem c1_classdata_flag_dispatch (reg : Registry) (n : Nat) (c : ClassDesc)
    (st : PState) :
    (c.flags &&& 0x0F = 0x02 →
      classdata reg (n + 1) c st = values reg n c.fields [] st) ∧
    (∀ (m : Nat) (acc : FMap) (st1 : PState),
      values reg (m + 1) [] acc st1 = .ok (acc, st1)) ∧
    (∀ (m : Nat) (f : FieldDesc) (fs : List FieldDesc) (acc : FMap)
       (st1 : PState),
      values reg (m + 1) (f :: fs) acc st1 = (do
        let (v, st2) ← readPrim reg m (some f.type) st1
        values reg m fs (aset acc f.name v) st2)) ∧
    (c.flags &&& 0x0F = 0x03 →
      classdata reg (n + 1) c st = (do
        let (res, st1) ← values reg n c.fields [] st
        let (data, st2) ← annotations reg n none st1
        let res1 := aset res (jstr "@") (.list data)
        match reg c.name c.serialVersionUID with
        | some p => .ok (p c res1 data, st2)
        | none => .ok (res1, st2))) ∧
    (c.flags &&& 0x0F = 0x04 →
      classdata reg (n + 1) c st = .error .externalizable) ∧
    (c.flags &&& 0x0F = 0x0C →
      classdata reg (n + 1) c st = (do
        let (a, st1) ← annotations reg n none st
        .ok ([(jstr "@", JValue.list a)], st1)) ∧
      ∀ fs2 : List FieldDesc,
        classdata reg (n + 1)
          (ClassDesc.mk c.name c.serialVersionUID c.flags c.isEnum fs2
            c.annots c.sup) st = classdata reg (n + 1) c st) ∧
    (c.flags &&& 0x0F ≠ 0x02 → c.flags &&& 0x0F ≠ 0x03 →
     c.flags &&& 0x0F ≠ 0x04 → c.flags &&& 0x0F ≠ 0x0C →
      classdata reg (n + 1) c st = .error (.unknownFlags c.flags)) := by
  refine ⟨?_, values_succ_nil reg, values_succ_cons reg, ?_, ?_, ?_, ?_⟩
  · intro h2
    rw [classdata_succ]
    try dsimp only
    rw [h2]
  · intro h3
    rw [classdata_succ]
    try dsimp only
    rw [h3]
  · intro h4
    rw [classdata_succ]
    try dsimp only
    rw [h4]
  · intro h12
    constructor
    · rw [classdata_succ]
      try dsimp only
      rw [h12]
    · intro fs2
      cases c with
      | mk nm u f e fs a sup =>
        rw [classdata_succ, classdata_succ]
        dsimp only [ClassDesc.flags, ClassDesc.name, ClassDesc.serialVersionUID,
          ClassDesc.isEnum, ClassDesc.annots, ClassDesc.sup,
          ClassDesc.fields] at h12 ⊢
        rw [h12]
        try rfl
  · intro h2 h3 h4 h12
    rw [classdata_succ]
    try dsimp only
    generalize hm : c.flags &&& 0x0F = m
    rw [hm] at h2 h3 h4 h12
    have hb : m ≤ 15 := by rw [← hm]; exact Nat.and_le_right
    interval_cases m
    all_goals first
      | rfl
      | exact absurd rfl h2
      | exact absurd rfl h3
      | exact absurd rfl h4
      | exact absurd rfl h12

/-- C1 witness: the dispatch at concrete flag values 2, 3, 4, 0x0C and 5. -/
theorem c1_classdata_flag_dispatch_witness :
    classdata emptyReg 3 (c1mk 2) c1St = values emptyReg 2 (c1mk 2).fields [] c1St ∧
    classdata emptyReg 3 (c1mk 3) c1St = (do
      let (res, st1) ← values emptyReg 2 (c1mk 3).fields [] c1St
      let (data, st2) ← annotations emptyReg 2 none st1
      let res1 := aset res (jstr "@") (.list data)
      match emptyReg (c1mk 3).name (c1mk 3).serialVersionUID with
      | some p => .ok (p (c1mk 3) res1 data, st2)
      | none => .ok (res1, st2)) ∧
    classdata emptyReg 3 (c1mk 4) c1St = .error .externalizable ∧
    classdata emptyReg 3 (c1mk 0x0C) c1St = (do
      let (a, st1) ← annotations emptyReg 2 none c1St
      .ok ([(jstr "@", JValue.list a)], st1)) ∧
    (∀ fs2 : List FieldDesc,
      classdata emptyReg 3
        (ClassDesc.mk (c1mk 0x0C).name (c1mk 0x0C).serialVersionUID
          (c1mk 0x0C).flags (c1mk 0x0C).isEnum fs2 (c1mk 0x0C).annots
          (c1mk 0x0C).sup) c1St = classdata emptyReg 3 (c1mk 0x0C) c1St) ∧
    classdata emptyReg 3 (c1mk 5) c1St = .error (.unknownFlags (c1mk 5).flags) := by
  refine ⟨?_, ?_, ?_, ?_, ?_, ?_⟩
  · exact (c1_classdata_flag_dispatch emptyReg 2 (c1mk 2) c1St).1 (by decide)
  · exact (c1_classdata_flag_dispatch emptyReg 2 (c1mk 3) c1St).2.2.2.1 (by decide)
  · exact (c1_classdata_flag_dispatch emptyReg 2 (c1mk 4) c1St).2.2.2.2.1 (by decide)
  · exact ((c1_classdata_flag_dispatch emptyReg 2 (c1mk 0x0C)
      c1St).2.2.2.2.2.1 (by decide)).1
  · exact ((c1_classdata_flag_dispatch emptyReg 2 (c1mk 0x0C)
      c1St).2.2.2.2.2.1 (by decide)).2
  · exact (c1_classdata_flag_dispatch emptyReg 2 (c1mk 5) c1St).2.2.2.2.2.2
      (by decide) (by decide) (by decide) (by decide)
